import Mathlib

/-!
Verification development for the legal-redaction backend.

Shallow embedding of the core detection / fusion / replacement algorithms:

* `cross_validate` — Stage 3 of the hybrid text detector
  (`backend/app/services/hybrid_ner_service.py`, `HybridNERService._cross_validate`);
* the replacement engine (`backend/app/services/redactor.py`, `RedactionContext`);
* the dual-pipeline box fuser (`backend/app/services/vision_service.py`,
  `VisionService._deduplicate_boxes`);
* OCR sub-word reprojection geometry
  (`backend/app/services/hybrid_vision_service.py` and
  `VisionService._detect_with_ocr_has`);
* the coordinate-convention normalizer
  (`backend/app/core/glm_client.py`, `GLMClient.vision_detect_direct`);
* the HaS text-NER client (`backend/app/services/has_client.py`);
* the taxonomy registry listing (`backend/app/api/entity_types.py`).

Machine strings are modelled by Lean `String` (a list of unicode scalar
values, matching Python's code-point strings), floats by `ℚ`, and Python
dicts by insertion-ordered association lists.
-/

/-- Python `s[a:b]` on a string (half-open code-point slice). -/
def pySlice (s : String) (a b : Nat) : String :=
  ⟨(s.data.drop a).take (b - a)⟩

/-- Python `s.find(sub, i)`: the smallest index `j ≥ i` at which `sub`
occurs in `s`, as `none` when there is no occurrence. -/
def pyFindFrom (s sub : String) (i : Nat) : Option Nat :=
  ((List.range (s.data.length + 1)).filter
    (fun j => i ≤ j ∧ sub.data.isPrefixOf (s.data.drop j))).head?

/-- Length of a Python string in code points. -/
def pyLen (s : String) : Nat := s.data.length

/-- Lookup in an insertion-ordered association list (Python dict read). -/
def lookupAssoc {α : Type} (m : List (String × α)) (k : String) : Option α :=
  (m.find? (fun p => p.1 = k)).map (·.2)

/-- Python `f"{n:03d}"`: decimal rendering zero-padded to width 3. -/
def pad3 (n : Nat) : String :=
  if n < 10 then "00" ++ toString n
  else if n < 100 then "0" ++ toString n
  else toString n

/-! ## Hybrid text detector, Stage 3 (`HybridNERService._cross_validate`) -/

/-- Textual entity (`app/models/schemas.py` `Entity`; fields used by the
hybrid NER service and the replacement engine). `end` being a Lean keyword,
the Python field `end` is called `stop`. -/
structure Entity where
  id : String
  text : String
  type : String
  start : Nat
  stop : Nat
  page : Nat := 1
  confidence : ℚ
  source : String
  coref_id : Option String := none
  replacement : Option String := none
deriving DecidableEq, Repr

/-- The `(start, end)` span of an entity, the key of the per-position
deduplication dict. -/
def spanKey (e : Entity) : Nat × Nat := (e.start, e.stop)

/-- Source rank used by cross-validation
(`order = {"regex": 3, "has": 2, "llm": 2, "manual": 1}`, default 0). -/
def source_rank (source : String) : Nat :=
  if source = "regex" then 3
  else if source = "has" then 2
  else if source = "llm" then 2
  else if source = "manual" then 1
  else 0

/-- Type priority used by cross-validation (ADDRESS 3; ORG, PERSON,
LEGAL_PARTY, LAWYER, JUDGE 2; default 1). -/
def type_priority (t : String) : Nat :=
  if t = "ADDRESS" then 3
  else if t = "ORG" then 2
  else if t = "PERSON" then 2
  else if t = "LEGAL_PARTY" then 2
  else if t = "LAWYER" then 2
  else if t = "JUDGE" then 2
  else 1

/-- Relocation loop of cross-validation step 1: scan for an occurrence of
`e.text` whose span does not overlap an already-used position; on success
the entity is appended with rewritten offsets.  The Python `while True`
loop advances `start_index` by at least `len(e.text)` per iteration, so a
fuel of `pyLen txt + 2` makes the embedding equal to the source loop. -/
def relocateEntity (txt : String) (e : Entity) :
    Nat → List Entity × List (Nat × Nat) → Nat → List Entity × List (Nat × Nat)
  | 0, acc, _ => acc
  | fuel + 1, (validated, used), startIdx =>
    match pyFindFrom txt e.text startIdx with
    | none => (validated, used)
    | some found =>
      let fin := found + pyLen e.text
      if used.any (fun p => ¬ (fin ≤ p.1 ∨ found ≥ p.2)) then
        relocateEntity txt e fuel (validated, used) (found + pyLen e.text)
      else
        (validated ++ [{ e with start := found, stop := fin }], used ++ [(found, fin)])

/-- Cross-validation step 1 (position fix-up): keep entities whose recorded
span reproduces their text, re-locate the others past used positions. -/
def validatePositions (entities : List Entity) (txt : String) : List Entity :=
  (entities.foldl
    (fun acc e =>
      if e.start < e.stop ∧ e.stop ≤ pyLen txt ∧ pySlice txt e.start e.stop = e.text then
        (acc.1 ++ [e], acc.2 ++ [(e.start, e.stop)])
      else
        relocateEntity txt e (pyLen txt + 2) acc 0)
    ([], [])).1

/-- The replacement test of cross-validation step 2: the newcomer wins on
strictly higher confidence, then on strictly higher source rank, then on
strictly higher type priority. -/
def beats (e existing : Entity) : Prop :=
  e.confidence > existing.confidence ∨
    (e.confidence = existing.confidence ∧
      (source_rank e.source > source_rank existing.source ∨
        (source_rank e.source = source_rank existing.source ∧
          type_priority e.type > type_priority existing.type)))

instance (e existing : Entity) : Decidable (beats e existing) := by
  unfold beats; infer_instance

/-- One step of the per-position deduplication dict `entity_map`: insert at
the back when the `(start, end)` key is new, otherwise replace in place
when the newcomer `beats` the holder. -/
def dedupStep (m : List Entity) (e : Entity) : List Entity :=
  match m.find? (fun x => spanKey x = spanKey e) with
  | none => m ++ [e]
  | some existing =>
    if beats e existing then
      m.map (fun x => if spanKey x = spanKey e then e else x)
    else m

/-- Cross-validation step 2: deduplicate by exact `(start, end)` span,
keeping dict insertion order. -/
def dedupBySpan (validated : List Entity) : List Entity :=
  validated.foldl dedupStep []

/-- Coref id rendered as `f"coref_{n:03d}"`. -/
def corefName (n : Nat) : String := "coref_" ++ pad3 n

/-- Cross-validation step 3: assign the same coref id to entities sharing
`(text, type)`, numbering new classes from 1. -/
def corefAssign : List Entity → List ((String × String) × String) → Nat → List Entity
  | [], _, _ => []
  | e :: rest, m, c =>
    match lookupAssocPair m (e.text, e.type) with
    | some name => { e with coref_id := some name } :: corefAssign rest m c
    | none =>
      let name := corefName (c + 1)
      { e with coref_id := some name } ::
        corefAssign rest (m ++ [((e.text, e.type), name)]) (c + 1)
where
  /-- dict lookup keyed by a `(text, type)` pair. -/
  lookupAssocPair (m : List ((String × String) × String)) (k : String × String) :
      Option String :=
    (m.find? (fun p => p.1 = k)).map (·.2)

/-- Orders entities by start offset; the key of the final stable sort. -/
def startLe (a b : Entity) : Prop := a.start ≤ b.start

instance : DecidableRel startLe := fun a b => Nat.decLe a.start b.start

instance : IsTotal Entity startLe := ⟨fun a b => Nat.le_total a.start b.start⟩

instance : IsTrans Entity startLe := ⟨fun _ _ _ => Nat.le_trans⟩

/-- Cross-validation step 4b: re-index ids as `entity_0 … entity_{n-1}`. -/
def reindexIds (es : List Entity) : List Entity :=
  es.enum.map (fun p => { p.2 with id := "entity_" ++ toString p.1 })

/-- Stage 3 of the hybrid text detector (`HybridNERService._cross_validate`):
position fix-up, per-span deduplication, coref assignment, stable sort by
`start`, id rewrite.  Python's `list.sort` is stable, hence the insertion
sort on `startLe`. -/
def cross_validate (entities : List Entity) (txt : String) : List Entity :=
  if entities = [] then []
  else
    reindexIds
      (List.insertionSort startLe (corefAssign (dedupBySpan (validatePositions entities txt)) [] 0))

example :
    (cross_validate
      [{ id := "has_0", text := "张三丰", type := "PERSON", start := 0, stop := 3,
         confidence := 19/20, source := "has" },
       { id := "has_1", text := "张三", type := "PERSON", start := 0, stop := 2,
         confidence := 19/20, source := "has" }]
      "张三丰是武当派宗师。").map (fun e => (e.text, e.start, e.stop)) =
      [("张三丰", 0, 3), ("张三", 0, 2)] := by decide

/-! ## Replacement engine (`RedactionContext`, `redactor.py`) -/

/-- The replacement mode (`ReplacementMode` enum). -/
inductive ReplacementMode where
  | smart
  | mask
  | structured
  | custom
deriving DecidableEq

/-- Mask characters of `_generate_mask_replacement`, on the code-point list
of the entity text, dispatching on the type key. -/
def maskChars (typeKey : String) (t : List Char) : List Char :=
  if typeKey = "PERSON" then
    if 2 ≤ t.length then t.take 1 ++ List.replicate (t.length - 1) '*'
    else ['*']
  else if typeKey = "PHONE" then
    if 11 ≤ t.length then t.take 3 ++ List.replicate 4 '*' ++ t.drop (t.length - 4)
    else List.replicate t.length '*'
  else if typeKey = "ID_CARD" then
    if 18 ≤ t.length then t.take 6 ++ List.replicate 8 '*' ++ t.drop (t.length - 4)
    else List.replicate t.length '*'
  else if typeKey = "BANK_CARD" then
    if 16 ≤ t.length then List.replicate (t.length - 4) '*' ++ t.drop (t.length - 4)
    else List.replicate t.length '*'
  else
    List.replicate t.length '*'

/-- The mask-mode replacement (`RedactionContext._generate_mask_replacement`):
PERSON keeps the first character, PHONE keeps first 3 and last 4 around a
fixed `****` when the length is at least 11, ID_CARD keeps first 6 and last
4 around a fixed 8-star run when the length is at least 18, BANK_CARD keeps
the last 4, everything else is fully starred. -/
def generate_mask_replacement (e : Entity) : String :=
  ⟨maskChars e.type e.text.data⟩

/-- Per-type display labels of `_generate_smart_replacement`. -/
def smartTypeLabel (typeKey : String) : String :=
  (lookupAssoc
    [("PERSON", "当事人"), ("ORG", "公司"), ("ID_CARD", "证件号"),
     ("PHONE", "电话"), ("ADDRESS", "地址"), ("BANK_CARD", "账号"),
     ("CASE_NUMBER", "案号"), ("DATE", "日期"), ("MONEY", "金额"),
     ("AMOUNT", "金额"), ("EMAIL", "邮箱"), ("LICENSE_PLATE", "车牌"),
     ("CONTRACT_NO", "合同编号"), ("CUSTOM", "敏感信息")] typeKey).getD "敏感信息"

/-- Chinese numeral used by smart replacements for counters 1–10; Arabic
digits beyond (`chinese_nums[count]` vs `str(count)`). -/
def chineseNum (count : Nat) : String :=
  if count ≤ 10 then
    (["零", "一", "二", "三", "四", "五", "六", "七", "八", "九", "十"].get? count).getD
      (toString count)
  else toString count

/-- Python dict counter update `counters[k] = v` (insert or overwrite in
place). -/
def updateAssocNat (m : List (String × Nat)) (k : String) (v : Nat) :
    List (String × Nat) :=
  if (m.find? (fun p => p.1 = k)).isSome then
    m.map (fun p => if p.1 = k then (k, v) else p)
  else m ++ [(k, v)]

/-- Replacement-engine state (`RedactionContext` mutable fields).  The
taxonomy registry read by `_get_tag_template` is abstracted as the
`tag_templates` lookup into `entity_types_db`. -/
structure RedactionCtx where
  mode : ReplacementMode
  entity_map : List (String × String) := []
  coref_map : List (String × String) := []
  type_counters : List (String × Nat) := []
  custom_replacements : List (String × String) := []
  structured_tag_map : List (String × String) := []
  tag_templates : String → Option String := fun _ => none

/-- Smart replacement (`_generate_smart_replacement`): bump the per-type
counter and render `[<label><numeral>]`. -/
def generate_smart_replacement (ctx : RedactionCtx) (e : Entity) :
    String × RedactionCtx :=
  let typeKey := e.type
  let count := (lookupAssoc ctx.type_counters typeKey).getD 0 + 1
  let ctx2 := { ctx with type_counters := updateAssocNat ctx.type_counters typeKey count }
  ("[" ++ smartTypeLabel typeKey ++ chineseNum count ++ "]", ctx2)

/-- Built-in structured categories of `_generate_structured_replacement`. -/
def structuredMap (typeKey : String) : Option (String × String) :=
  lookupAssoc
    [("PERSON", ("人物", "个人.姓名")), ("ORG", ("组织", "企业.完整名称")),
     ("ADDRESS", ("地点", "办公地址.完整地址")), ("PHONE", ("电话", "固定电话.号码")),
     ("ID_CARD", ("编号", "身份证.号码")), ("BANK_CARD", ("编号", "银行卡.号码")),
     ("CASE_NUMBER", ("编号", "案件编号.号码")), ("DATE", ("日期/时间", "具体日期.年月日")),
     ("MONEY", ("金额", "合同金额.数值")), ("AMOUNT", ("金额", "合同金额.数值")),
     ("EMAIL", ("邮箱", "个人邮箱.地址")), ("LICENSE_PLATE", ("编号", "车牌.号码")),
     ("CONTRACT_NO", ("编号", "合同编号.代码"))] typeKey

/-- Structured replacement (`_generate_structured_replacement`): reuse a
tag-shaped coref id, then the hide mapping, then the registry tag template
with `{index}` filled, then the built-in per-type template. -/
def generate_structured_replacement (ctx : RedactionCtx) (e : Entity) :
    String × RedactionCtx :=
  let typeKey := e.type
  match e.coref_id with
  | some c =>
    if c.startsWith "<" ∧ c.endsWith ">" then (c, ctx)
    else generateStructuredTail ctx e typeKey
  | none => generateStructuredTail ctx e typeKey
where
  /-- The branches after the tag-shaped-coref test. -/
  generateStructuredTail (ctx : RedactionCtx) (e : Entity) (typeKey : String) :
      String × RedactionCtx :=
    match lookupAssoc ctx.structured_tag_map e.text with
    | some tag => (tag, ctx)
    | none =>
      match ctx.tag_templates typeKey with
      | some template =>
        let index := (lookupAssoc ctx.type_counters typeKey).getD 0 + 1
        let ctx2 :=
          { ctx with type_counters := updateAssocNat ctx.type_counters typeKey index }
        (template.replace "\x7bindex\x7d" (pad3 index), ctx2)
      | none =>
        let index := (lookupAssoc ctx.type_counters typeKey).getD 0 + 1
        let ctx2 :=
          { ctx with type_counters := updateAssocNat ctx.type_counters typeKey index }
        match structuredMap typeKey with
        | some (category, path) =>
          ("<" ++ category ++ "[" ++ pad3 index ++ "]." ++ path ++ ">", ctx2)
        | none => ("<" ++ typeKey ++ "[" ++ pad3 index ++ "].完整名称>", ctx2)

/-- The cache key of `get_replacement`: `entity.coref_id or entity.text`
(`None` and the empty string both fall back to the text). -/
def entityKey (e : Entity) : String :=
  match e.coref_id with
  | some c => if c = "" then e.text else c
  | none => e.text

/-- The mode dispatch of `get_replacement` (the branch taken on a coref
cache miss). -/
def generateByMode (ctx : RedactionCtx) (e : Entity) : String × RedactionCtx :=
  match ctx.mode with
  | ReplacementMode.custom =>
    match lookupAssoc ctx.custom_replacements e.text with
    | some r => (r, ctx)
    | none =>
      match e.replacement with
      | some rep => if rep = "" then generate_smart_replacement ctx e else (rep, ctx)
      | none => generate_smart_replacement ctx e
  | ReplacementMode.mask => (generate_mask_replacement e, ctx)
  | ReplacementMode.structured => generate_structured_replacement ctx e
  | ReplacementMode.smart => generate_smart_replacement ctx e

/-- `RedactionContext.get_replacement`: answer from the coref cache when the
key is known; otherwise generate per mode, record the key in `_coref_map`,
and record the first replacement of each surface text in `entity_map`. -/
def get_replacement (ctx : RedactionCtx) (e : Entity) : String × RedactionCtx :=
  let key := entityKey e
  match lookupAssoc ctx.coref_map key with
  | some r => (r, ctx)
  | none =>
    let rc := generateByMode ctx e
    let ctx3 := { rc.2 with coref_map := rc.2.coref_map ++ [(key, rc.1)] }
    let ctx4 :=
      if (lookupAssoc ctx3.entity_map e.text).isSome then ctx3
      else { ctx3 with entity_map := ctx3.entity_map ++ [(e.text, rc.1)] }
    (rc.1, ctx4)

/-- A sequence of `get_replacement` calls on one context, collecting the
returned strings (the per-document replacement loop of the redactor). -/
def runReplacements (ctx : RedactionCtx) : List Entity → List String × RedactionCtx
  | [] => ([], ctx)
  | e :: rest =>
    let rc := get_replacement ctx e
    let tail := runReplacements rc.2 rest
    (rc.1 :: tail.1, tail.2)

example :
    (runReplacements { mode := ReplacementMode.smart }
      [{ id := "e0", text := "张三", type := "PERSON", start := 0, stop := 2,
         confidence := 1, source := "has", coref_id := some "c1" },
       { id := "e1", text := "张先生", type := "PERSON", start := 5, stop := 8,
         confidence := 1, source := "has", coref_id := some "c1" }]).1 =
      ["[当事人一]", "[当事人一]"] := by decide

/-! ## Dual-pipeline fuser (`VisionService._deduplicate_boxes`) -/

/-- Visual region (`app/models/schemas.py` `BoundingBox`), unit coordinates
as exact rationals. -/
structure BoundingBox where
  id : String
  x : ℚ
  y : ℚ
  width : ℚ
  height : ℚ
  page : Nat := 1
  type : String
  text : String := ""
  source : String
deriving DecidableEq, Repr

/-- Intersection-over-union of two boxes (`VisionService._calculate_iou`). -/
def calculate_iou (box1 box2 : BoundingBox) : ℚ :=
  let x1 := max box1.x box2.x
  let y1 := max box1.y box2.y
  let x2 := min (box1.x + box1.width) (box2.x + box2.width)
  let y2 := min (box1.y + box1.height) (box2.y + box2.height)
  if x2 ≤ x1 ∨ y2 ≤ y1 then 0
  else
    let intersection := (x2 - x1) * (y2 - y1)
    let union := box1.width * box1.height + box2.width * box2.height - intersection
    if union ≤ 0 then 0 else intersection / union

/-- Last fusion pass: append each remaining box unless it overlaps the
accumulated result above the threshold. -/
def addOtherBoxes (thr : ℚ) (acc : List BoundingBox) :
    List BoundingBox → List BoundingBox
  | [] => acc
  | b :: bs =>
    if acc.any (fun e => thr < calculate_iou b e) then addOtherBoxes thr acc bs
    else addOtherBoxes thr (acc ++ [b]) bs

/-- Body of `_deduplicate_boxes` past the `len(boxes) <= 1` early return:
keep all `ocr_has` boxes, keep a `glm_vision` box only when it overlaps no
`ocr_has` box above the threshold, then deduplicate the remaining sources
against the accumulated result. -/
def dedupCore (thr : ℚ) (boxes : List BoundingBox) : List BoundingBox :=
  let ocr := boxes.filter (fun b => b.source = "ocr_has")
  let glm := boxes.filter (fun b => b.source = "glm_vision")
  let other := boxes.filter (fun b => b.source ≠ "ocr_has" ∧ b.source ≠ "glm_vision")
  let result := ocr ++ glm.filter (fun g => ¬ ocr.any (fun o => thr < calculate_iou g o))
  addOtherBoxes thr result other

/-- `VisionService._deduplicate_boxes` with its default threshold 0.3. -/
def deduplicate_boxes (boxes : List BoundingBox) : List BoundingBox :=
  if boxes.length ≤ 1 then boxes else dedupCore (3/10) boxes

/-! ## OCR + HaS geometry (`hybrid_vision_service.py`, `vision_service.py`) -/

/-- Python `int(q)` (truncation toward zero). -/
def pyTrunc (q : ℚ) : Int := if 0 ≤ q then ⌊q⌋ else ⌈q⌉

/-- Pixel rectangle of a text block as produced by
`HybridVisionService._run_ocr_service` from a unit-coordinate OCR item:
scale to pixels, force a positive size, then clip to the image. Returns
`(left, top, right, bottom)`. -/
def makeBlock (ix iy iw ih : ℚ) (W H : Int) : Int × Int × Int × Int :=
  let left := pyTrunc (ix * W)
  let top := pyTrunc (iy * H)
  let w := pyTrunc (iw * W)
  let h := pyTrunc (ih * H)
  let right := max (left + max w 1) (left + 1)
  let bottom := max (top + max h 1) (top + 1)
  let left2 := max 0 (min left (W - 1))
  let top2 := max 0 (min top (H - 1))
  let right2 := max (left2 + 1) (min right W)
  let bottom2 := max (top2 + 1) (min bottom H)
  (left2, top2, right2, bottom2)

/-- Count of a character in a Python string. -/
def pyCountChar (s : String) (c : Char) : Nat := s.data.count c

/-- Python `sub in s`. -/
def pyContains (s sub : String) : Bool := (pyFindFrom s sub 0).isSome

/-- The multi-field-line test of `_match_entities_to_ocr`: at least two
separators among `：`, `:`, `|`, or a double space, or a tab. -/
def isMultiField (blockText : String) : Prop :=
  2 ≤ pyCountChar blockText '：' + pyCountChar blockText ':' + pyCountChar blockText '|' ∨
    pyContains blockText "  " = true ∨ pyContains blockText "\t" = true

instance (blockText : String) : Decidable (isMultiField blockText) := by
  unfold isMultiField; infer_instance

/-- Sub-word pixel geometry of the exact-substring branch of
`HybridVisionService._match_entities_to_ocr`, for a block with pixel
rectangle `(left, top, width, height)`.  Returns `none` when the entity
does not occur in the block text (the Python loop then skips the block);
otherwise `(sub_left, top, sub_width, height)`.  In the interpolating
branch the sub-word width is forced to at least 20 px. -/
def subwordGeometry (left top width height : Int) (blockText entityText : String) :
    Option (Int × Int × Int × Int) :=
  match pyFindFrom blockText entityText 0 with
  | none => none
  | some startPos =>
    let textLen := pyLen blockText
    let entityLen := pyLen entityText
    if 100 < textLen ∨ (entityLen : ℚ) / (textLen : ℚ) < 1/10 ∨ isMultiField blockText then
      some (left, top, width, height)
    else if 0 < textLen then
      let startRato : ℚ := (startPos : ℚ) / (textLen : ℚ)
      let widthRato : ℚ := (entityLen : ℚ) / (textLen : ℚ)
      let subLeft := pyTrunc ((left : ℚ) + startRato * (width : ℚ))
      let subWidth := max (pyTrunc (widthRato * (width : ℚ))) 20
      if 4/5 < widthRato then some (left, top, width, height)
      else some (subLeft, top, subWidth, height)
    else some (left, top, width, height)

/-- Conversion of a pixel region to a unit-coordinate bounding box
(`VisionService._detect_with_ocr_has`: divide by image width/height). -/
def regionToUnitBox (left top width height : Int) (W H : Int) : ℚ × ℚ × ℚ × ℚ :=
  ((left : ℚ) / (W : ℚ), (top : ℚ) / (H : ℚ), (width : ℚ) / (W : ℚ), (height : ℚ) / (H : ℚ))

example :
    makeBlock (7/10) 0 (3/10) (1/10) 100 100 = (70, 0, 100, 10) := by
  with_unfolding_all decide

example :
    subwordGeometry 70 0 30 10 "aaaaabbbbb" "bbbbb" = some (85, 0, 20, 10) := by
  with_unfolding_all decide

/-! ## Coordinate normalizer (`GLMClient.vision_detect_direct`, direct mode) -/

/-- The configured square coordinate base (`COORD_MODE = 1000`). -/
def COORD_BASE : ℚ := 1000

/-- A raw `box_2d` quadruple `[xmin, ymin, xmax, ymax]` from the model. -/
abbrev RawBox := ℚ × ℚ × ℚ × ℚ

/-- Order the raw quadruple so that min coordinates precede max. -/
def swapRawBox (raw : RawBox) : RawBox :=
  let (xmin, ymin, xmax, ymax) := raw
  let (xmin, xmax) := if xmin > xmax then (xmax, xmin) else (xmin, xmax)
  let (ymin, ymax) := if ymin > ymax then (ymax, ymin) else (ymin, ymax)
  (xmin, ymin, xmax, ymax)

/-- The `_normalize_box` closure of `vision_detect_direct`: transform a raw
box to unit coordinates under one candidate convention. -/
def normalize_box (raw : RawBox) (mode : String) (coordBase : ℚ) (imgW imgH : ℚ) :
    Option (ℚ × ℚ × ℚ × ℚ) :=
  let (xmin, ymin, xmax, ymax) := swapRawBox raw
  if mode = "pixel" then
    let divX := max imgW 1
    let divY := max imgH 1
    some (xmin / divX, ymin / divY, xmax / divX, ymax / divY)
  else if mode = "normalized" then
    some (xmin, ymin, xmax, ymax)
  else if mode = "coord_square" then
    some (xmin / coordBase, ymin / coordBase, xmax / coordBase, ymax / coordBase)
  else if mode = "coord_square_letterbox" then
    if imgW ≤ 0 ∨ imgH ≤ 0 then none
    else
      let scale := min (coordBase / imgW) (coordBase / imgH)
      if scale ≤ 0 then none
      else
        let padX := (coordBase - imgW * scale) / 2
        let padY := (coordBase - imgH * scale) / 2
        some ((xmin - padX) / (imgW * scale), (ymin - padY) / (imgH * scale),
              (xmax - padX) / (imgW * scale), (ymax - padY) / (imgH * scale))
  else none

/-- The `score_mode` closure: count raw boxes whose transform lands in the
(slightly padded) unit square with admissible width and height. -/
def score_mode (rawBoxes : List RawBox) (mode : String) (coordBase : ℚ)
    (imgW imgH : ℚ) : Nat :=
  rawBoxes.foldl
    (fun score raw =>
      match normalize_box raw mode coordBase imgW imgH with
      | none => score
      | some (x1, y1, x2, y2) =>
        let w := x2 - x1
        let h := y2 - y1
        if x1 < -(2/100) ∨ y1 < -(2/100) ∨ x2 ≤ x1 ∨ y2 ≤ y1 then score
        else if x2 > 1 + 2/100 ∨ y2 > 1 + 2/100 then score
        else if w < 3/1000 ∨ h < 3/1000 ∨ w > 98/100 ∨ h > 98/100 then score
        else score + 1)
    0

/-- Candidate conventions in declaration order; base `0` is the Python falsy
placeholder that falls back to `COORD_MODE`. -/
def coordCandidates : List (String × ℚ) :=
  [("pixel", 0), ("normalized", 0),
   ("coord_square", 1000), ("coord_square_letterbox", 1000),
   ("coord_square", 1024), ("coord_square_letterbox", 1024)]

/-- Each candidate paired with its score (`scored` in the source). -/
def scoredCandidates (rawBoxes : List RawBox) (imgW imgH : ℚ) :
    List (Nat × String × ℚ) :=
  coordCandidates.map
    (fun p => (score_mode rawBoxes p.1 (if p.2 = 0 then COORD_BASE else p.2) imgW imgH,
               p.1, p.2))

/-- Sort key of the convention choice: the score, then a flag that is 0 for
`coord_square*` and 1 otherwise; the list is sorted on this key in reverse
(descending) order. -/
def coordSortKey (s : Nat) (mode : String) : Nat × Nat :=
  (s, if mode.startsWith "coord_square" then 0 else 1)

/-- Strict descending comparison on sort keys (lexicographic). -/
def keyGt (a b : Nat × Nat) : Prop := b.1 < a.1 ∨ (a.1 = b.1 ∧ b.2 < a.2)

instance (a b : Nat × Nat) : Decidable (keyGt a b) := by
  unfold keyGt; infer_instance

/-- Head of the stable descending sort of the scored candidates: the
earliest candidate whose key no later candidate strictly exceeds. -/
def selectConvention (rawBoxes : List RawBox) (imgW imgH : ℚ) :
    Nat × String × ℚ :=
  match scoredCandidates rawBoxes imgW imgH with
  | [] => (0, "coord_square", COORD_BASE)
  | c :: cs =>
    cs.foldl
      (fun best c2 =>
        if keyGt (coordSortKey c2.1 c2.2.1) (coordSortKey best.1 best.2.1) then c2
        else best)
      c

/-- Tail of `vision_detect_direct` (non-zhipu path): normalize every raw box
under the chosen convention, drop junk sizes, clamp into the unit square,
and emit `(x, y, width, height)`. -/
def vision_detect_direct_boxes (rawBoxes : List RawBox) (imgW imgH : ℚ) :
    List (ℚ × ℚ × ℚ × ℚ) :=
  let chosen := selectConvention rawBoxes imgW imgH
  let mode := chosen.2.1
  let coordBase := if chosen.2.2 = 0 then COORD_BASE else chosen.2.2
  rawBoxes.filterMap
    (fun raw =>
      match normalize_box raw mode coordBase imgW imgH with
      | none => none
      | some (x1, y1, x2, y2) =>
        let w := x2 - x1
        let h := y2 - y1
        if w < 5/1000 ∨ h < 5/1000 ∨ w > 95/100 ∨ h > 95/100 then none
        else
          let x1c := max 0 (min 1 x1)
          let y1c := max 0 (min 1 y1)
          let wc := min (1 - x1c) (max 0 w)
          let hc := min (1 - y1c) (max 0 h)
          some (x1c, y1c, wc, hc))

example :
    selectConvention [(50, 50, 450, 250), (50, 50, 450, 250)] 2000 1500 =
      (2, "pixel", 0) := by with_unfolding_all decide

example :
    vision_detect_direct_boxes [(50, 50, 450, 250), (50, 50, 450, 250)] 2000 1500 =
      [(1/40, 1/30, 1/5, 2/15), (1/40, 1/30, 1/5, 2/15)] := by with_unfolding_all decide

/-! ## HaS text-NER client (`has_client.py`) -/

/-- The NER reply shape `{type: [mentions]}` as an insertion-ordered map. -/
abbrev NerMap := List (String × List String)

/-- Skip JSON whitespace. -/
def jsonWs : List Char → List Char
  | c :: rest =>
    if c = ' ' ∨ c = '\n' ∨ c = '\t' ∨ c = '\r' then jsonWs rest else c :: rest
  | [] => []

/-- Parse a JSON string body up to the closing quote, honouring `\\"` and
`\\\\` escapes (other escapes are kept verbatim; the NER replies carry
plain mention text). -/
def jsonStringBody : List Char → Option (String × List Char)
  | [] => none
  | c :: rest =>
    if c = '"' then some ("", rest)
    else if c = '\\' then
      match rest with
      | [] => none
      | e :: rest2 =>
        match jsonStringBody rest2 with
        | some (s, rem) =>
          some (⟨(if e = '"' then '"' else if e = '\\' then '\\' else e) :: s.data⟩, rem)
        | none => none
    else
      match jsonStringBody rest with
      | some (s, rem) => some (⟨c :: s.data⟩, rem)
      | none => none

/-- Parse a quoted JSON string. -/
def jsonString (cs : List Char) : Option (String × List Char) :=
  match jsonWs cs with
  | c :: rest => if c = '"' then jsonStringBody rest else none
  | [] => none

/-- Parse the items of a nonempty JSON array of strings (first item already
expected). -/
def jsonArrayRest : Nat → List Char → Option (List String × List Char)
  | 0, _ => none
  | fuel + 1, cs =>
    match jsonString cs with
    | none => none
    | some (s, rem) =>
      match jsonWs rem with
      | c :: rest =>
        if c = ',' then
          match jsonArrayRest fuel rest with
          | some (items, rem2) => some (s :: items, rem2)
          | none => none
        else if c = ']' then some ([s], rest)
        else none
      | [] => none

/-- Parse a JSON array of strings. -/
def jsonArray (fuel : Nat) (cs : List Char) : Option (List String × List Char) :=
  match jsonWs cs with
  | c :: rest =>
    if c = '[' then
      match jsonWs rest with
      | d :: rest2 =>
        if d = ']' then some ([], rest2)
        else
          match jsonArrayRest fuel (d :: rest2) with
          | some (items, rem) => some (items, rem)
          | none => none
      | [] => none
    else none
  | [] => none

/-- Parse the members of a nonempty JSON object `{string: [strings], …}`
after the first key is known to follow. -/
def jsonObjectRest : Nat → List Char → Option (NerMap × List Char)
  | 0, _ => none
  | fuel + 1, cs =>
    match jsonString cs with
    | none => none
    | some (k, rem) =>
      match jsonWs rem with
      | c :: rest =>
        if c = ':' then
          match jsonArray (fuel + 1) rest with
          | none => none
          | some (v, rem2) =>
            match jsonWs rem2 with
            | d :: rest2 =>
              if d = ',' then
                match jsonObjectRest fuel rest2 with
                | some (m, rem3) => some ((k, v) :: m, rem3)
                | none => none
              else if d = '\x7d' then some ([(k, v)], rest2)
              else none
            | [] => none
        else none
      | [] => none

/-- Strict parse of a model reply of the documented NER shape
`{type: [mentions]}` (an object mapping strings to arrays of strings,
the shape `json.loads` is applied to by `HaSClient.ner`); `none` models a
`json.JSONDecodeError`.  The reply must be the object alone up to
surrounding whitespace. -/
def parseNerJson (s : String) : Option NerMap :=
  match jsonWs s.data with
  | c :: rest =>
    if c = '\x7b' then
      match jsonWs rest with
      | d :: rest2 =>
        if d = '\x7d' then
          match jsonWs rest2 with
          | [] => some []
          | _ => none
        else
          match jsonObjectRest (s.data.length + 1) (d :: rest2) with
          | some (m, rem) =>
            match jsonWs rem with
            | [] => some m
            | _ => none
          | none => none
      | [] => none
    else none
  | [] => none

/-- The fallback extractor `re.search(r'\x7b.*\x7d', response, re.DOTALL)`:
the greedy match runs from the first `\x7b` to the last `\x7d` when that
span is nonempty. -/
def extractOuterJson (s : String) : Option String :=
  match s.data.findIdx? (fun c => c = '\x7b') with
  | none => none
  | some i =>
    match (s.data.reverse.findIdx? (fun c => c = '\x7d')).map
        (fun r => s.data.length - 1 - r) with
    | none => none
    | some j => if i < j then some ⟨(s.data.drop i).take (j - i + 1)⟩ else none

/-- Transport layer outcome of `HaSClient._call_model`. -/
inductive TransportResult where
  | ok (response : String)
  | error
deriving DecidableEq

/-- `HaSClient.ner`: call the model, parse the reply as strict JSON; on a
decode error extract the outermost object with the regex and retry; return
the empty mapping when nothing can be recovered and also when the transport
call itself raises (the final `except Exception` branch). -/
def ner (call : TransportResult) : NerMap :=
  match call with
  | TransportResult.error => []
  | TransportResult.ok response =>
    match parseNerJson response with
    | some result => result
    | none =>
      match extractOuterJson response with
      | some sub => (parseNerJson sub).getD []
      | none => []

/-- Python truthiness test of the `hide` guard
`not ner_result or all(len(v) == 0 for v in ner_result.values())`. -/
def nerResultEmpty (m : NerMap) : Prop := ∀ p ∈ m, p.2 = []

instance (m : NerMap) : Decidable (nerResultEmpty m) := by
  unfold nerResultEmpty; infer_instance

/-- History-mapping update at the end of a successful `hide`: append each
value of the new mapping to its tag's history list unless already present. -/
def updateHistory (hist mapping : NerMap) : NerMap :=
  mapping.foldl
    (fun h p =>
      let cur := (lookupAssoc h p.1).getD []
      let reg := if (lookupAssoc h p.1).isSome then h else h ++ [(p.1, [])]
      let merged := p.2.foldl (fun acc v => if v ∈ acc then acc else acc ++ [v]) cur
      reg.map (fun q => if q.1 = p.1 then (p.1, merged) else q))
    hist

/-- `HaSClient.hide`: run the preliminary `ner`, return the input text with
an empty mapping when it yields nothing; otherwise issue the two-turn hide
call — on a transport error return the input text with an empty mapping,
on success return the masked reply with the `pair` mapping and fold the
mapping into the history.  The chat transcripts are abstracted into the
call outcomes; `pairMapping` is the result of the follow-up `pair` call
(itself total: its parse failures yield an empty mapping). -/
def hide (text : String) (nerResult : NerMap) (hideCall : TransportResult)
    (pairMapping : NerMap) (hist : NerMap) : (String × NerMap) × NerMap :=
  if nerResultEmpty nerResult then ((text, []), hist)
  else
    match hideCall with
    | TransportResult.error => ((text, []), hist)
    | TransportResult.ok masked =>
      ((masked, pairMapping), updateHistory hist pairMapping)

example : parseNerJson "\x7b\"人名\": [\"张三\", \"李四\"], \"组织\": []\x7d" =
    some [("人名", ["张三", "李四"]), ("组织", [])] := by decide

example : ner (TransportResult.ok "I found no entities.") = [] := by decide

example : ner (TransportResult.ok "reply: \x7b\"人名\": [\"张三\"]\x7d done") =
    [("人名", ["张三"])] := by decide

/-! ## Taxonomy registry listing (`entity_types.py`, `get_entity_types`) -/

/-- Registry entry (`EntityTypeConfig`).  Defaults mirror the Pydantic
model's defaults. -/
structure EntityTypeConfig where
  id : String
  name : String
  category : String := "other"
  description : String := ""
  examples : List String := []
  color : String := "#888888"
  regex_pattern : Option String := none
  use_llm : Bool := true
  enabled : Bool := true
  order : Int := 100
  tag_template : Option String := none
  risk_level : Nat := 3
deriving DecidableEq, Repr

/-- Orders registry entries by their `order` weight; the sort key of the
listing endpoint. -/
def orderLe (a b : EntityTypeConfig) : Prop := a.order ≤ b.order

instance : DecidableRel orderLe := fun a b => Int.decLe a.order b.order

instance : IsTotal EntityTypeConfig orderLe := ⟨fun a b => Int.le_total a.order b.order⟩

instance : IsTrans EntityTypeConfig orderLe := ⟨fun _ _ _ => le_trans⟩

/-- `get_entity_types`: snapshot `entity_types_db.values()` in insertion
order (`db`), optionally filter to enabled entries, and sort ascending by
`order`.  Python's `list.sort` is stable, hence the insertion sort. -/
def get_entity_types (db : List EntityTypeConfig) (enabledOnly : Bool) :
    List EntityTypeConfig :=
  let types := if enabledOnly then db.filter (fun t => t.enabled) else db
  List.insertionSort orderLe types

example :
    (get_entity_types
      [{ id := "PERSON", name := "人名", order := 1 },
       { id := "custom_b2", name := "b", order := 200 },
       { id := "custom_a1", name := "a", order := 200 }] false).map (·.id) =
      ["PERSON", "custom_b2", "custom_a1"] := by decide

/-! ## Claim C10 — `hide` fails closed -/

/-- C10: if the preliminary `ner` inside `hide` yields no entities (empty
result or every mention list empty), or the hide model call raises a
transport error, then `hide` returns the original text unchanged with an
empty mapping, leaving the history untouched. -/
theorem C10_hide_fails_closed (text : String) (nerResult : NerMap)
    (hideCall : TransportResult) (pairMapping hist : NerMap) :
    (nerResultEmpty nerResult →
      hide text nerResult hideCall pairMapping hist = ((text, []), hist)) ∧
    (hideCall = TransportResult.error →
      hide text nerResult hideCall pairMapping hist = ((text, []), hist)) := by
  constructor
  · intro h
    simp [hide, h]
  · intro h
    subst h
    by_cases hemp : nerResultEmpty nerResult <;> simp [hide, hemp]

/-- Witness for C10 at concrete inputs: an all-empty NER result, and a
transport error on the hide call. -/
theorem C10_hide_fails_closed_witness :
    hide "张三的电话。" [("人名", [])] (TransportResult.ok "masked") [] [] =
        (("张三的电话。", []), []) ∧
      hide "张三。" [("人名", ["张三"])] TransportResult.error
          [("<人物[001].个人.姓名>", ["张三"])] [] =
        (("张三。", []), []) :=
  ⟨(C10_hide_fails_closed "张三的电话。" [("人名", [])]
      (TransportResult.ok "masked") [] []).1 (by decide),
   (C10_hide_fails_closed "张三。" [("人名", ["张三"])] TransportResult.error
      [("<人物[001].个人.姓名>", ["张三"])] []).2 rfl⟩

/-! ## Claim C8 — `ner` parse fallbacks -/

/-- C8 counterexample: on a reply carrying no JSON at all, `ner` does not
fail with a `ParseError` — both the strict parse and the regex extraction
fail, and the operation returns an empty mapping as a successful result
(the source has no raise on this path; even transport errors are caught and
mapped to `return {}`). -/
theorem C8_counterexample :
    parseNerJson "I found no entities." = none ∧
      extractOuterJson "I found no entities." = none ∧
      ner (TransportResult.ok "I found no entities.") = [] := by decide

/-- C8 as amended: `ner` parses the reply as strict JSON; on a decode error
it extracts the outermost JSON object with a regex and parses that; when no
JSON can be recovered it returns an empty mapping (no exception is raised),
and a transport error is likewise swallowed into an empty mapping. -/
theorem C8_ner_parse_chain (response : String) :
    (∀ m, parseNerJson response = some m → ner (TransportResult.ok response) = m) ∧
    (parseNerJson response = none → ∀ sub, extractOuterJson response = some sub →
      ner (TransportResult.ok response) = (parseNerJson sub).getD []) ∧
    (parseNerJson response = none → extractOuterJson response = none →
      ner (TransportResult.ok response) = []) ∧
    ner TransportResult.error = [] := by
  refine ⟨fun m hm => ?_, fun h1 sub h2 => ?_, fun h1 h2 => ?_, rfl⟩
  · simp [ner, hm]
  · simp [ner, h1, h2]
  · simp [ner, h1, h2]

/-- Witness for C8 at concrete replies: a strict-JSON reply, a reply with
surrounding prose, and a reply with no JSON. -/
theorem C8_ner_parse_chain_witness :
    ner (TransportResult.ok "\x7b\"人名\": [\"张三\"]\x7d") = [("人名", ["张三"])] ∧
      ner (TransportResult.ok "no json in this reply") = [] :=
  ⟨(C8_ner_parse_chain "\x7b\"人名\": [\"张三\"]\x7d").1 [("人名", ["张三"])] (by decide),
   (C8_ner_parse_chain "no json in this reply").2.2.1 (by decide) (by decide)⟩

/-! ## Claim C4 — mask replacement length -/

/-- C4 counterexample: the 12-character landline PHONE entity
`"010-88886666"` (matched by the second PHONE regex of the hybrid
detector) masks to the 11-character string `"010****6666"` — the fixed
`****` core makes the PHONE branch non-length-preserving above 11
characters. -/
theorem C4_counterexample :
    generate_mask_replacement
        { id := "regex_PHONE_0", text := "010-88886666", type := "PHONE",
          start := 5, stop := 17, confidence := 9/10, source := "regex" } =
      "010****6666" ∧
    pyLen (generate_mask_replacement
        { id := "regex_PHONE_0", text := "010-88886666", type := "PHONE",
          start := 5, stop := 17, confidence := 9/10, source := "regex" }) = 11 ∧
    pyLen "010-88886666" = 12 := by decide

/-- Length of the mask characters on a nonempty code-point list. -/
theorem maskChars_length (tk : String) (l : List Char) (h : l ≠ []) :
    (maskChars tk l).length =
      if tk = "PHONE" ∧ 11 ≤ l.length then 11
      else if tk = "ID_CARD" ∧ 18 ≤ l.length then 18
      else l.length := by
  have hn : 0 < l.length := List.length_pos.mpr h
  unfold maskChars
  by_cases hPER : tk = "PERSON"
  · by_cases h2 : 2 ≤ l.length <;>
      simp [hPER, h2, List.length_append, List.length_take, List.length_replicate] <;>
      omega
  · by_cases hPH : tk = "PHONE"
    · by_cases h11 : 11 ≤ l.length <;>
        simp [hPH, h11, List.length_append, List.length_take, List.length_replicate,
          List.length_drop] <;>
        omega
    · by_cases hID : tk = "ID_CARD"
      · by_cases h18 : 18 ≤ l.length <;>
          simp [hID, hPH, h18, List.length_append, List.length_take,
            List.length_replicate, List.length_drop] <;>
          omega
      · by_cases hBC : tk = "BANK_CARD"
        · by_cases h16 : 16 ≤ l.length <;>
            simp [hBC, hPER, hPH, hID, h16, List.length_append,
              List.length_replicate, List.length_drop] <;>
            omega
        · simp [hPER, hPH, hID, hBC, List.length_replicate]

/-- C4 as amended: for a nonempty entity text the mask replacement has the
same length as the text, except that a PHONE text longer than 11 masks to
exactly 11 characters and an ID_CARD text longer than 18 masks to exactly
18 characters (first-3/last-4 and first-6/last-4 around fixed star runs). -/
theorem C4_mask_length (e : Entity) (h : e.text ≠ "") :
    pyLen (generate_mask_replacement e) =
      if e.type = "PHONE" ∧ 11 ≤ pyLen e.text then 11
      else if e.type = "ID_CARD" ∧ 18 ≤ pyLen e.text then 18
      else pyLen e.text := by
  have hl : e.text.data ≠ [] := by
    intro hd
    exact h (congrArg String.mk hd)
  have hmask := maskChars_length e.type e.text.data hl
  simpa [generate_mask_replacement, pyLen] using hmask

/-- Witness for C4 at concrete entities: a PERSON name (length preserved)
and an 11-digit mobile PHONE (length preserved at the boundary). -/
theorem C4_mask_length_witness :
    pyLen (generate_mask_replacement
        { id := "e1", text := "张三", type := "PERSON", start := 0, stop := 2,
          confidence := 1, source := "has" }) = 2 ∧
    pyLen (generate_mask_replacement
        { id := "e2", text := "13812345678", type := "PHONE", start := 0, stop := 11,
          confidence := 1, source := "regex" }) = 11 := by
  constructor
  · have h := C4_mask_length
      { id := "e1", text := "张三", type := "PERSON", start := 0, stop := 2,
        confidence := 1, source := "has" } (by decide)
    simpa using h
  · have h := C4_mask_length
      { id := "e2", text := "13812345678", type := "PHONE", start := 0, stop := 11,
        confidence := 1, source := "regex" } (by decide)
    simpa using h

/-! ## Claim C9 — registry listing order -/

/-- Lexicographic (code-point) strict order on strings, the Python `<` on
`str` used to phrase the claimed tie-break. -/
def lexLtChars : List Char → List Char → Prop
  | [], [] => False
  | [], _ :: _ => True
  | _ :: _, [] => False
  | a :: as, b :: bs => a < b ∨ (a = b ∧ lexLtChars as bs)

instance : (l1 l2 : List Char) → Decidable (lexLtChars l1 l2)
  | [], [] => isFalse (fun h => h)
  | [], _ :: _ => isTrue trivial
  | _ :: _, [] => isFalse (fun h => h)
  | a :: as, b :: bs =>
    have : Decidable (lexLtChars as bs) := instDecidableLexLtChars as bs
    inferInstanceAs (Decidable (_ ∨ _))

/-- C9 counterexample: with two user-created entries of equal `order` 200
inserted as `custom_b2` then `custom_a1`, the listing returns them in
registry insertion order — `list.sort(key=lambda x: x.order)` is stable and
never consults `id`, so the claimed lexicographic tie-break by lower id
does not hold. -/
theorem C9_counterexample :
    get_entity_types
        [{ id := "custom_b2", name := "b", order := 200 },
         { id := "custom_a1", name := "a", order := 200 }] false =
      [{ id := "custom_b2", name := "b", order := 200 },
       { id := "custom_a1", name := "a", order := 200 }] ∧
    ¬ List.Pairwise
        (fun x y : EntityTypeConfig =>
          x.order < y.order ∨ (x.order = y.order ∧ ¬ lexLtChars y.id.data x.id.data))
        (get_entity_types
          [{ id := "custom_b2", name := "b", order := 200 },
           { id := "custom_a1", name := "a", order := 200 }] false) := by
  constructor
  · decide
  · intro hp
    have h :=
      (List.pairwise_cons.mp hp).1
        { id := "custom_a1", name := "a", order := 200 } (by decide)
    revert h
    decide

/-- Filtering on an `order` value commutes with one ordered insertion:
entries skipped by the insertion point have strictly smaller `order`. -/
theorem filter_orderedInsert_order (k : Int) (a : EntityTypeConfig)
    (l : List EntityTypeConfig) :
    (List.orderedInsert orderLe a l).filter (fun t => t.order = k) =
      if a.order = k then a :: l.filter (fun t => t.order = k)
      else l.filter (fun t => t.order = k) := by
  induction l with
  | nil => by_cases hk : a.order = k <;> simp [hk]
  | cons b bs ih =>
    by_cases hab : orderLe a b
    · by_cases hk : a.order = k <;> simp [List.orderedInsert, hab, hk]
    · have hlt : b.order < a.order := by
        simpa [orderLe, not_le] using hab
      by_cases hk : a.order = k
      · have hbk : ¬ b.order = k := by omega
        simp [List.orderedInsert, hab, hk, hbk, ih]
      · by_cases hbk : b.order = k <;> simp [List.orderedInsert, hab, hk, hbk, ih]

/-- Filtering on an `order` value is unchanged by the stable sort. -/
theorem filter_insertionSort_order (k : Int) (l : List EntityTypeConfig) :
    (List.insertionSort orderLe l).filter (fun t => t.order = k) =
      l.filter (fun t => t.order = k) := by
  induction l with
  | nil => rfl
  | cons a l ih =>
    by_cases hk : a.order = k <;>
      simp [List.insertionSort, filter_orderedInsert_order, hk, ih]

/-- C9 as amended: the listing is sorted ascending by `order`, and the sort
is stable — for every order value the entries carrying it appear in
registry insertion order (after the optional `enabled` filter); there is no
tie-break by id. -/
theorem C9_list_sorted_stable (db : List EntityTypeConfig) (enabledOnly : Bool) :
    List.Pairwise orderLe (get_entity_types db enabledOnly) ∧
    ∀ k : Int,
      (get_entity_types db enabledOnly).filter (fun t => t.order = k) =
        (if enabledOnly then db.filter (fun t => t.enabled) else db).filter
          (fun t => t.order = k) := by
  constructor
  · exact List.sorted_insertionSort orderLe _
  · intro k
    exact filter_insertionSort_order k _

/-! ## Claim C3 — coordinate-convention choice -/

/-- Transitivity of the strict descending key order. -/
theorem keyGt_trans {a b c : Nat × Nat} (h1 : keyGt a b) (h2 : keyGt b c) :
    keyGt a c := by
  unfold keyGt at h1 h2 ⊢
  omega

/-- The convention-selection fold returns one of its candidates, and no
candidate has a strictly greater sort key (so the earliest maximal key
wins, matching the head of Python's stable descending sort). -/
theorem selectBest_spec {α : Type} (key : α → Nat × Nat) (init : α) (cs : List α) :
    (cs.foldl (fun b c => if keyGt (key c) (key b) then c else b) init = init ∨
      cs.foldl (fun b c => if keyGt (key c) (key b) then c else b) init ∈ cs) ∧
    ¬ keyGt (key init)
        (key (cs.foldl (fun b c => if keyGt (key c) (key b) then c else b) init)) ∧
    ∀ c ∈ cs,
      ¬ keyGt (key c)
        (key (cs.foldl (fun b c => if keyGt (key c) (key b) then c else b) init)) := by
  induction cs generalizing init with
  | nil =>
    refine ⟨Or.inl rfl, ?_, by simp⟩
    simp [keyGt]
  | cons c rest ih =>
    by_cases hc : keyGt (key c) (key init)
    · have := ih c
      simp only [List.foldl_cons, if_pos hc]
      refine ⟨?_, ?_, ?_⟩
      · rcases this.1 with h | h
        · exact Or.inr (by simp [h])
        · exact Or.inr (by simp [h])
      · intro hinit
        exact this.2.1 (keyGt_trans hc hinit)
      · intro x hx
        rcases List.mem_cons.mp hx with hx | hx
        · subst hx; exact this.2.1
        · exact this.2.2 x hx
    · have := ih init
      simp only [List.foldl_cons, if_neg hc]
      refine ⟨?_, this.2.1, ?_⟩
      · rcases this.1 with h | h
        · exact Or.inl h
        · exact Or.inr (by simp [h])
      · intro x hx
        rcases List.mem_cons.mp hx with hx | hx
        · subst hx
          intro hgt
          rcases this.1 with h | h
          · rw [h] at hgt; exact hc hgt
          · -- the accumulated best is an element of rest, whose key is not
            -- exceeded by `init`; `c` does not exceed `init` either
            exact absurd hgt (by
              intro hgt2
              -- key c ≤ key init ≤ key best along the not-greater order
              have h1 : ¬ keyGt (key init) (key _) := this.2.1
              unfold keyGt at hgt2 hc h1
              omega)
        · exact this.2.2 x hx

/-- C3 counterexample: for the spec's own seed scenario — two raw boxes
`[50, 50, 450, 250]` on a 2000×1500-pixel image — the `pixel` convention
scores 2/2 (not 0/2: 450/2000 and 250/1500 lie inside the accepted
window), the descending sort on `(score, is-coord-square ? 0 : 1)` places
`pixel` before the equally-scoring `coord_square` candidates, and the
emitted unit boxes are `(0.025, 1/30, 0.2, 2/15)`, not
`(0.05, 0.05, 0.40, 0.20)`. -/
theorem C3_counterexample :
    score_mode [(50, 50, 450, 250), (50, 50, 450, 250)] "pixel" COORD_BASE 2000 1500 = 2 ∧
    score_mode [(50, 50, 450, 250), (50, 50, 450, 250)] "coord_square" 1000 2000 1500 = 2 ∧
    selectConvention [(50, 50, 450, 250), (50, 50, 450, 250)] 2000 1500 =
      (2, "pixel", 0) ∧
    vision_detect_direct_boxes [(50, 50, 450, 250), (50, 50, 450, 250)] 2000 1500 =
      [(1/40, 1/30, 1/5, 2/15), (1/40, 1/30, 1/5, 2/15)] ∧
    vision_detect_direct_boxes [(50, 50, 450, 250), (50, 50, 450, 250)] 2000 1500 ≠
      [(1/20, 1/20, 2/5, 1/5), (1/20, 1/20, 2/5, 1/5)] := by
  with_unfolding_all decide

/-- C3 as amended: the direct-mode normalizer scores every candidate
convention by the number of boxes landing in the padded unit square with
admissible sizes, and picks the earliest candidate with the maximal
`(score, flag)` key where the flag is 1 for `pixel`/`normalized` and 0 for
`coord_square*` — so ties prefer `pixel`/`normalized` over `coord_square`.
On the seed scenario (two boxes `[50,50,450,250]`, 2000×1500 image) both
`pixel` and `coord_square` base 1000 score 2/2, `pixel` is chosen, and the
emitted unit boxes are `(0.025, 1/30, 0.2, 2/15)`. -/
theorem C3_convention_choice :
    (∀ rawBoxes : List RawBox, ∀ imgW imgH : ℚ,
      selectConvention rawBoxes imgW imgH ∈ scoredCandidates rawBoxes imgW imgH ∧
      ∀ c ∈ scoredCandidates rawBoxes imgW imgH,
        ¬ keyGt (coordSortKey c.1 c.2.1)
          (coordSortKey (selectConvention rawBoxes imgW imgH).1
            (selectConvention rawBoxes imgW imgH).2.1)) ∧
    selectConvention [(50, 50, 450, 250), (50, 50, 450, 250)] 2000 1500 =
      (2, "pixel", 0) ∧
    vision_detect_direct_boxes [(50, 50, 450, 250), (50, 50, 450, 250)] 2000 1500 =
      [(1/40, 1/30, 1/5, 2/15), (1/40, 1/30, 1/5, 2/15)] := by
  refine ⟨fun rawBoxes imgW imgH => ?_, ?_, ?_⟩
  · have hne : scoredCandidates rawBoxes imgW imgH ≠ [] := by
      simp [scoredCandidates, coordCandidates]
    rcases hsc : scoredCandidates rawBoxes imgW imgH with _ | ⟨c, cs⟩
    · exact absurd hsc hne
    · have hspec := selectBest_spec (fun x => coordSortKey x.1 x.2.1) c cs
      have hsel : selectConvention rawBoxes imgW imgH =
          cs.foldl
            (fun best c2 =>
              if keyGt (coordSortKey c2.1 c2.2.1) (coordSortKey best.1 best.2.1) then c2
              else best)
            c := by
        simp only [selectConvention, hsc]
      constructor
      · rw [hsel]
        rcases hspec.1 with h | h
        · rw [h]; exact List.mem_cons_self c cs
        · exact List.mem_cons_of_mem c h
      · intro x hx
        rw [hsel]
        rcases List.mem_cons.mp hx with hx | hx
        · subst hx; exact hspec.2.1
        · exact hspec.2.2 x hx
  · with_unfolding_all decide
  · with_unfolding_all decide

set_option maxRecDepth 4000 in
/-- Witness for C3 at the seed input: the `coord_square` base-1000
candidate, scoring 2, does not out-rank the chosen `pixel` candidate. -/
theorem C3_convention_choice_witness :
    ¬ keyGt (coordSortKey 2 "coord_square") (coordSortKey 2 "pixel") := by
  have h :=
    (C3_convention_choice.1 [(50, 50, 450, 250), (50, 50, 450, 250)] 2000 1500).2
      (2, "coord_square", 1000) (by with_unfolding_all decide)
  rw [C3_convention_choice.2.1] at h
  exact h

/-! ## Claim C2 — same-span collapse of regex and NER candidates -/

/-- The newcomer-beats test between a regex candidate and a `has` candidate
reduces to a confidence comparison: the regex source rank 3 exceeds the
`has` rank 2, so a confidence tie also goes to the regex newcomer. -/
theorem beats_regex_has (r n : Entity) (hr : r.source = "regex")
    (hn : n.source = "has") : beats r n ↔ n.confidence ≤ r.confidence := by
  simp only [beats, source_rank, hr, hn]
  norm_num
  constructor
  · rintro (h | ⟨h, _⟩)
    · exact le_of_lt h
    · exact le_of_eq h.symm
  · intro h
    rcases lt_or_eq_of_le h with h | h
    · exact Or.inl h
    · exact Or.inr ⟨h.symm, Or.inl (by decide)⟩

/-- C2 as amended: when cross-validation receives a `has`-sourced candidate
followed by a regex-sourced candidate occupying exactly the same valid
`(start, end)` span, they collapse to exactly one output entity — the
winner is the higher-confidence candidate, with the regex candidate
winning confidence ties (regex source rank 3 beats has rank 2); the winner
keeps its own source and confidence, so the collapsed entity's confidence
is the higher of the two while its source is `regex` exactly when the
regex confidence is at least the NER confidence.  The survivor gets coref
id `coref_001` and is re-indexed `entity_0`. -/
theorem C2_same_span_collapse (txt : String) (n r : Entity)
    (hsrc_n : n.source = "has") (hsrc_r : r.source = "regex")
    (hspan_s : r.start = n.start) (hspan_t : r.stop = n.stop)
    (hlt : n.start < n.stop) (hle : n.stop ≤ pyLen txt)
    (hval : pySlice txt n.start n.stop = n.text)
    (hvalr : pySlice txt r.start r.stop = r.text) :
    cross_validate [n, r] txt =
      [{ (if n.confidence ≤ r.confidence then r else n) with
          id := "entity_0", coref_id := some "coref_001" }] := by
  have htext : n.text = r.text := by
    rw [hspan_s, hspan_t] at hvalr
    exact hval.symm.trans hvalr
  have hvp : validatePositions [n, r] txt = [n, r] := by
    simp [validatePositions, hlt, hle, hval, hvalr, hspan_s, hspan_t, htext]
  have hkey : spanKey r = spanKey n := by
    simp [spanKey, hspan_s, hspan_t]
  have hdd : dedupBySpan [n, r] = [if n.confidence ≤ r.confidence then r else n] := by
    simp only [dedupBySpan, List.foldl_cons, List.foldl_nil]
    rw [show dedupStep [] n = [n] by simp [dedupStep]]
    by_cases hc : n.confidence ≤ r.confidence
    · have hb : beats r n := (beats_regex_has r n hsrc_r hsrc_n).mpr hc
      simp [dedupStep, hkey, hb, hc]
    · have hb : ¬ beats r n := fun hb => hc ((beats_regex_has r n hsrc_r hsrc_n).mp hb)
      simp [dedupStep, hkey, hb, hc]
  have hne : ¬ ([n, r] = ([] : List Entity)) := by simp
  simp only [cross_validate, if_neg hne, hvp, hdd]
  by_cases hc : n.confidence ≤ r.confidence <;>
    simp [hc, corefAssign, corefAssign.lookupAssocPair, List.insertionSort, reindexIds,
      corefName, pad3, List.enum] <;>
    decide

/-- Witness for C2 at a concrete input: a `has` candidate at confidence
0.95 and a regex candidate at confidence 0.99 on the same span; the regex
candidate survives with its own confidence. -/
theorem C2_same_span_collapse_witness :
    cross_validate
      [{ id := "has_0", text := "13812345678", type := "PHONE", start := 3, stop := 14,
         confidence := mkRat 19 20, source := "has" },
       { id := "regex_PHONE_0", text := "13812345678", type := "PHONE", start := 3,
         stop := 14, confidence := mkRat 99 100, source := "regex" }]
      "手机：13812345678。" =
      [{ id := "entity_0", text := "13812345678", type := "PHONE", start := 3, stop := 14,
         confidence := mkRat 99 100, source := "regex", coref_id := some "coref_001" }] := by
  have h := C2_same_span_collapse "手机：13812345678。"
    { id := "has_0", text := "13812345678", type := "PHONE", start := 3, stop := 14,
      confidence := mkRat 19 20, source := "has" }
    { id := "regex_PHONE_0", text := "13812345678", type := "PHONE", start := 3,
      stop := 14, confidence := mkRat 99 100, source := "regex" }
    rfl rfl rfl rfl (by decide) (by decide) (by decide) (by decide)
  refine h.trans ?_
  with_unfolding_all decide

/-- C2 counterexample: a `has`-sourced candidate at confidence 0.95 and a
regex-sourced candidate at confidence 0.90 (the landline PHONE pattern's
baked-in confidence) on the same span collapse to an entity whose source
is `has`, not `regex` — the winner is chosen by confidence first, and only
a tie falls through to the source rank. -/
theorem C2_counterexample :
    (cross_validate
      [{ id := "has_0", text := "010-88886666", type := "PHONE", start := 2, stop := 14,
         confidence := mkRat 19 20, source := "has" },
       { id := "regex_PHONE_1", text := "010-88886666", type := "PHONE", start := 2,
         stop := 14, confidence := mkRat 9 10, source := "regex" }]
      "电话010-88886666。").map (fun e => e.source) = ["has"] := by
  with_unfolding_all decide

/-! ## Claim C1 — Stage 3 output order and overlap -/

/-- Entities at pairwise distinct `(start, end)` spans. -/
def DistinctSpans (l : List Entity) : Prop :=
  List.Pairwise (fun a b => spanKey a ≠ spanKey b) l

/-- The in-place replacement of the deduplication dict never changes an
element's span. -/
theorem spanKey_dedupReplace (e x : Entity) :
    spanKey (if spanKey x = spanKey e then e else x) = spanKey x := by
  by_cases h : spanKey x = spanKey e <;> simp [h]

/-- One deduplication step keeps the spans pairwise distinct. -/
theorem distinctSpans_dedupStep (m : List Entity) (e : Entity)
    (h : DistinctSpans m) : DistinctSpans (dedupStep m e) := by
  unfold dedupStep
  cases hf : m.find? (fun x => spanKey x = spanKey e) with
  | none =>
    have hall : ∀ x ∈ m, spanKey x ≠ spanKey e := by
      intro x hx
      have := List.find?_eq_none.mp hf x hx
      simpa using this
    refine List.pairwise_append.mpr ⟨h, List.pairwise_singleton _ _, ?_⟩
    intro x hx y hy
    rw [List.mem_singleton] at hy
    subst hy
    exact hall x hx
  | some ex =>
    unfold DistinctSpans at h ⊢
    by_cases hb : beats e ex
    · simp only [if_pos hb]
      rw [List.pairwise_map]
      refine h.imp_of_mem ?_
      intro a b _ _ hab
      rw [spanKey_dedupReplace, spanKey_dedupReplace]
      exact hab
    · simpa [hb] using h

/-- Deduplication always produces pairwise distinct spans. -/
theorem distinctSpans_dedupBySpan (l : List Entity) :
    DistinctSpans (dedupBySpan l) := by
  suffices h : ∀ m, DistinctSpans m → DistinctSpans (List.foldl dedupStep m l) from
    h [] List.Pairwise.nil
  induction l with
  | nil => exact fun m hm => hm
  | cons e rest ih =>
    intro m hm
    exact ih (dedupStep m e) (distinctSpans_dedupStep m e hm)

/-- Coref assignment touches only `coref_id`: any projection that ignores
`coref_id` is preserved elementwise. -/
theorem map_corefAssign {α : Type} (g : Entity → α)
    (hg : ∀ s e, g { e with coref_id := some s } = g e) :
    ∀ (es : List Entity) (m : List ((String × String) × String)) (c : Nat),
      (corefAssign es m c).map g = es.map g := by
  intro es
  induction es with
  | nil => intro m c; rfl
  | cons e rest ih =>
    intro m c
    unfold corefAssign
    cases corefAssign.lookupAssocPair m (e.text, e.type) with
    | some name => simp [hg, ih]
    | none => simp [hg, ih]

/-- Re-indexing touches only `id`: any projection that ignores `id` is
preserved elementwise. -/
theorem map_reindexIds {α : Type} (g : Entity → α)
    (hg : ∀ s e, g { e with id := s } = g e) (es : List Entity) :
    (reindexIds es).map g = es.map g := by
  unfold reindexIds
  rw [List.map_map]
  have h1 : (g ∘ fun p : Nat × Entity => { p.2 with id := "entity_" ++ toString p.1 }) =
      (g ∘ Prod.snd) := by
    funext p
    exact hg _ p.2
  rw [h1, ← List.map_map, List.enum_map_snd]

/-- Pairwise facts expressed through a projection transport across lists
with equal projections. -/
theorem pairwise_of_map_eq {α : Type} (g : Entity → α) (R : α → α → Prop)
    {l1 l2 : List Entity} (hmap : l1.map g = l2.map g)
    (h : List.Pairwise (fun a b => R (g a) (g b)) l2) :
    List.Pairwise (fun a b => R (g a) (g b)) l1 := by
  rw [← List.pairwise_map] at h ⊢
  rw [hmap]
  exact h

/-- C1 as amended: the entity list returned by Stage 3 is sorted by `start`
ascending, and its entities occupy pairwise distinct `(start, end)` spans
(the per-position deduplication); Stage 3 performs no cross-position
overlap resolution, so entities at overlapping but distinct spans are all
retained. -/
theorem C1_cross_validate_sorted_distinct (entities : List Entity) (txt : String) :
    List.Pairwise startLe (cross_validate entities txt) ∧
      DistinctSpans (cross_validate entities txt) := by
  unfold cross_validate
  by_cases hne : entities = []
  · simp [hne, DistinctSpans]
  · simp only [if_neg hne]
    set d := dedupBySpan (validatePositions entities txt) with hd
    set ca := corefAssign d [] 0 with hca
    set s := List.insertionSort startLe ca with hs
    have hdd : DistinctSpans d := distinctSpans_dedupBySpan _
    have hmap_ca : ca.map spanKey = d.map spanKey :=
      map_corefAssign spanKey (fun _ _ => rfl) d [] 0
    have hca_distinct : DistinctSpans ca :=
      pairwise_of_map_eq spanKey (fun a b => a ≠ b) hmap_ca hdd
    have hs_perm : List.Perm s ca := List.perm_insertionSort startLe ca
    have hs_distinct : DistinctSpans s :=
      (hs_perm.pairwise_iff (fun hab => Ne.symm hab)).mpr hca_distinct
    have hs_sorted : List.Pairwise startLe s := List.sorted_insertionSort startLe ca
    constructor
    · have hmap : (reindexIds s).map (fun e => e.start) = s.map (fun e => e.start) :=
        map_reindexIds (fun e => e.start) (fun _ _ => rfl) s
      have : List.Pairwise (fun a b : Entity => a.start ≤ b.start) (reindexIds s) :=
        pairwise_of_map_eq (fun e => e.start) (fun a b => a ≤ b) hmap hs_sorted
      exact this
    · have hmap : (reindexIds s).map spanKey = s.map spanKey :=
        map_reindexIds spanKey (fun _ _ => rfl) s
      exact pairwise_of_map_eq spanKey (fun a b => a ≠ b) hmap hs_distinct

/-- C1 counterexample: when NER proposes both `"张三丰"` (span 0–3) and
`"张三"` (span 0–2) on `"张三丰是武当派宗师。"`, Stage 3 keeps both — the
output still contains an entity `"张三"` and has an overlapping pair, so
the claimed greedy `(start, -length)` overlap resolution does not exist in
the code. -/
theorem C1_counterexample :
    (cross_validate
      [{ id := "has_0", text := "张三丰", type := "PERSON", start := 0, stop := 3,
         confidence := mkRat 19 20, source := "has" },
       { id := "has_1", text := "张三", type := "PERSON", start := 0, stop := 2,
         confidence := mkRat 19 20, source := "has" },
       { id := "has_2", text := "武当派", type := "ORG", start := 4, stop := 7,
         confidence := mkRat 19 20, source := "has" }]
      "张三丰是武当派宗师。").map (fun e => (e.text, e.start, e.stop)) =
      [("张三丰", 0, 3), ("张三", 0, 2), ("武当派", 4, 7)] ∧
    ((cross_validate
      [{ id := "has_0", text := "张三丰", type := "PERSON", start := 0, stop := 3,
         confidence := mkRat 19 20, source := "has" },
       { id := "has_1", text := "张三", type := "PERSON", start := 0, stop := 2,
         confidence := mkRat 19 20, source := "has" },
       { id := "has_2", text := "武当派", type := "ORG", start := 4, stop := 7,
         confidence := mkRat 19 20, source := "has" }]
      "张三丰是武当派宗师。").any (fun e => e.text = "张三") = true) ∧
    ¬ List.Pairwise (fun a b : Entity => a.stop ≤ b.start ∨ b.stop ≤ a.start)
      (cross_validate
        [{ id := "has_0", text := "张三丰", type := "PERSON", start := 0, stop := 3,
           confidence := mkRat 19 20, source := "has" },
         { id := "has_1", text := "张三", type := "PERSON", start := 0, stop := 2,
           confidence := mkRat 19 20, source := "has" },
         { id := "has_2", text := "武当派", type := "ORG", start := 4, stop := 7,
           confidence := mkRat 19 20, source := "has" }]
        "张三丰是武当派宗师。") := by
  refine ⟨by decide, by decide, by decide⟩

/-! ## Claim C5 — coref-stable replacements -/

/-- An association-list hit survives appending. -/
theorem lookupAssoc_append_of_some {α : Type} (m1 m2 : List (String × α))
    (k : String) (v : α) (h : lookupAssoc m1 k = some v) :
    lookupAssoc (m1 ++ m2) k = some v := by
  induction m1 with
  | nil => simp [lookupAssoc] at h
  | cons p rest ih =>
    by_cases hp : p.1 = k
    · simpa [lookupAssoc, List.find?, hp] using h
    · have h2 : lookupAssoc rest k = some v := by
        simpa [lookupAssoc, List.find?, hp] using h
      simpa [lookupAssoc, List.find?, hp] using ih h2

/-- On a miss, appending the key binds it. -/
theorem lookupAssoc_append_of_none {α : Type} (m : List (String × α))
    (k : String) (v : α) (h : lookupAssoc m k = none) :
    lookupAssoc (m ++ [(k, v)]) k = some v := by
  induction m with
  | nil => simp [lookupAssoc, List.find?]
  | cons p rest ih =>
    by_cases hp : p.1 = k
    · simp [lookupAssoc, List.find?, hp] at h
    · have h2 : lookupAssoc rest k = none := by
        simpa [lookupAssoc, List.find?, hp] using h
      simpa [lookupAssoc, List.find?, hp] using ih h2

/-- The structured-generation tail only advances type counters. -/
theorem coref_map_structuredTail (ctx : RedactionCtx) (e : Entity) (tk : String) :
    (generate_structured_replacement.generateStructuredTail ctx e tk).2.coref_map =
      ctx.coref_map := by
  unfold generate_structured_replacement.generateStructuredTail
  split
  · rfl
  · split
    · rfl
    · split <;> rfl

/-- Structured generation only advances type counters. -/
theorem coref_map_structured (ctx : RedactionCtx) (e : Entity) :
    (generate_structured_replacement ctx e).2.coref_map = ctx.coref_map := by
  unfold generate_structured_replacement
  split
  · split
    · rfl
    · exact coref_map_structuredTail ctx e e.type
  · exact coref_map_structuredTail ctx e e.type

/-- No generation mode writes to the coref cache. -/
theorem coref_map_generateByMode (ctx : RedactionCtx) (e : Entity) :
    (generateByMode ctx e).2.coref_map = ctx.coref_map := by
  unfold generateByMode
  cases ctx.mode with
  | custom =>
    cases lookupAssoc ctx.custom_replacements e.text with
    | some r => rfl
    | none =>
      cases e.replacement with
      | some rep =>
        by_cases hrep : rep = "" <;> simp [hrep, generate_smart_replacement]
      | none => rfl
  | mask => rfl
  | structured => exact coref_map_structured ctx e
  | smart => rfl

/-- After `get_replacement`, the coref cache answers the entity's key with
the returned replacement. -/
theorem get_replacement_coref_lookup (ctx : RedactionCtx) (e : Entity) :
    lookupAssoc (get_replacement ctx e).2.coref_map (entityKey e) =
      some (get_replacement ctx e).1 := by
  cases hit : lookupAssoc ctx.coref_map (entityKey e) with
  | some r =>
    simp only [get_replacement, hit]
  | none =>
    have hcm : (get_replacement ctx e).2.coref_map =
        (generateByMode ctx e).2.coref_map ++
          [(entityKey e, (generateByMode ctx e).1)] := by
      simp only [get_replacement, hit]
      split <;> rfl
    have hr : (get_replacement ctx e).1 = (generateByMode ctx e).1 := by
      simp only [get_replacement, hit]
    rw [hcm, hr, coref_map_generateByMode]
    exact lookupAssoc_append_of_none _ _ _ hit

/-- `get_replacement` never removes or rebinds an existing coref cache
entry. -/
theorem get_replacement_coref_mono (ctx : RedactionCtx) (e : Entity)
    (k : String) (v : String) (h : lookupAssoc ctx.coref_map k = some v) :
    lookupAssoc (get_replacement ctx e).2.coref_map k = some v := by
  cases hit : lookupAssoc ctx.coref_map (entityKey e) with
  | some r =>
    simp only [get_replacement, hit]
    exact h
  | none =>
    have hcm : (get_replacement ctx e).2.coref_map =
        (generateByMode ctx e).2.coref_map ++
          [(entityKey e, (generateByMode ctx e).1)] := by
      simp only [get_replacement, hit]
      split <;> rfl
    rw [hcm, coref_map_generateByMode]
    exact lookupAssoc_append_of_some _ _ _ _ h

/-- The replacement loop never removes or rebinds a coref cache entry. -/
theorem runReplacements_coref_mono (es : List Entity) (ctx : RedactionCtx)
    (k : String) (v : String) (h : lookupAssoc ctx.coref_map k = some v) :
    lookupAssoc (runReplacements ctx es).2.coref_map k = some v := by
  induction es generalizing ctx with
  | nil => simpa [runReplacements] using h
  | cons e rest ih =>
    simp only [runReplacements]
    exact ih _ (get_replacement_coref_mono ctx e k v h)

/-- Every replacement returned by the loop equals the final coref cache's
answer for the corresponding entity's key. -/
theorem runReplacements_out_lookup (es : List Entity) (ctx : RedactionCtx)
    (i : Nat) (ei : Entity) (h : es.get? i = some ei) :
    (runReplacements ctx es).1.get? i =
      some ((lookupAssoc (runReplacements ctx es).2.coref_map (entityKey ei)).getD "") := by
  induction es generalizing ctx i with
  | nil => simp at h
  | cons e rest ih =>
    cases i with
    | zero =>
      have he : e = ei := by simpa using h
      subst he
      simp only [runReplacements, List.get?]
      have h1 := get_replacement_coref_lookup ctx e
      have h2 := runReplacements_coref_mono rest (get_replacement ctx e).2
        (entityKey e) (get_replacement ctx e).1 h1
      rw [h2]
      rfl
    | succ i =>
      have h2 : rest.get? i = some ei := by simpa using h
      simpa [runReplacements] using ih (get_replacement ctx e).2 i h2

/-- C5: within one `RedactionContext`, any two entities with the same
non-null, non-empty `coref_id` — and more generally any two entities with
the same cache key `coref_id or text` — receive the same replacement
string, in every replacement mode; repeated calls for the same key always
return the same string (the cache is written once per key and never
rebound). -/
theorem C5_coref_stable_replacement (ctx : RedactionCtx) (es : List Entity)
    (i j : Nat) (ei ej : Entity) (hi : es.get? i = some ei)
    (hj : es.get? j = some ej)
    (hkey : (∃ c, c ≠ "" ∧ ei.coref_id = some c ∧ ej.coref_id = some c) ∨
      entityKey ei = entityKey ej) :
    (runReplacements ctx es).1.get? i = (runReplacements ctx es).1.get? j := by
  have hk : entityKey ei = entityKey ej := by
    rcases hkey with ⟨c, hc, h1, h2⟩ | hk
    · simp [entityKey, h1, h2, hc]
    · exact hk
  rw [runReplacements_out_lookup es ctx i ei hi,
    runReplacements_out_lookup es ctx j ej hj, hk]

/-- Witness for C5: two PERSON entities with different surface texts but the
same coref id `c1`, in smart mode, receive the same replacement. -/
theorem C5_coref_stable_replacement_witness :
    (runReplacements { mode := ReplacementMode.smart }
      [{ id := "e0", text := "张三", type := "PERSON", start := 0, stop := 2,
         confidence := 1, source := "has", coref_id := some "c1" },
       { id := "e1", text := "张先生", type := "PERSON", start := 5, stop := 8,
         confidence := 1, source := "has", coref_id := some "c1" }]).1.get? 0 =
    (runReplacements { mode := ReplacementMode.smart }
      [{ id := "e0", text := "张三", type := "PERSON", start := 0, stop := 2,
         confidence := 1, source := "has", coref_id := some "c1" },
       { id := "e1", text := "张先生", type := "PERSON", start := 5, stop := 8,
         confidence := 1, source := "has", coref_id := some "c1" }]).1.get? 1 :=
  C5_coref_stable_replacement { mode := ReplacementMode.smart } _ 0 1 _ _ rfl rfl
    (Or.inl ⟨"c1", by decide, rfl, rfl⟩)

/-! ## Claim C6 — dual-pipeline fusion -/

/-- IoU is symmetric. -/
theorem calculate_iou_comm (b1 b2 : BoundingBox) :
    calculate_iou b1 b2 = calculate_iou b2 b1 := by
  simp only [calculate_iou]
  rw [max_comm b1.x b2.x, max_comm b1.y b2.y,
    min_comm (b1.x + b1.width) (b2.x + b2.width),
    min_comm (b1.y + b1.height) (b2.y + b2.height),
    add_comm (b1.width * b1.height) (b2.width * b2.height)]

/-- The `len(boxes) <= 1` early return agrees with the general fusion body. -/
theorem deduplicate_boxes_eq_core (boxes : List BoundingBox) :
    deduplicate_boxes boxes = dedupCore (3/10) boxes := by
  match boxes with
  | [] => rfl
  | [b] =>
    by_cases hocr : b.source = "ocr_has"
    · simp [deduplicate_boxes, dedupCore, addOtherBoxes, hocr]
    · by_cases hglm : b.source = "glm_vision"
      · simp [deduplicate_boxes, dedupCore, addOtherBoxes, hocr, hglm]
      · simp [deduplicate_boxes, dedupCore, addOtherBoxes, hocr, hglm]
  | b :: c :: rest =>
    simp [deduplicate_boxes]

/-- The final fusion pass appends a sublist of the remaining boxes. -/
theorem addOtherBoxes_decomp (thr : ℚ) (others acc : List BoundingBox) :
    ∃ l, addOtherBoxes thr acc others = acc ++ l ∧ ∀ b ∈ l, b ∈ others := by
  induction others generalizing acc with
  | nil => exact ⟨[], by simp [addOtherBoxes]⟩
  | cons b bs ih =>
    by_cases hdup : acc.any (fun e => decide (thr < calculate_iou b e))
    · obtain ⟨l, hl, hmem⟩ := ih acc
      refine ⟨l, ?_, ?_⟩
      · simpa [addOtherBoxes, hdup] using hl
      · intro x hx
        exact List.mem_cons_of_mem b (hmem x hx)
    · obtain ⟨l, hl, hmem⟩ := ih (acc ++ [b])
      refine ⟨b :: l, ?_, ?_⟩
      · simp only [addOtherBoxes, hdup]
        rw [hl, List.append_assoc]
        rfl
      · intro x hx
        rcases List.mem_cons.mp hx with hx | hx
        · exact hx ▸ List.mem_cons_self b bs
        · exact List.mem_cons_of_mem b (hmem x hx)

/-- C6: the fuser retains every `ocr_has` box; a `glm_vision` box appears
in the output iff it overlaps no `ocr_has` box with IoU above 0.3; hence
no retained `(ocr_has, glm_vision)` pair overlaps above 0.3; and the
output is the `ocr_has` boxes in discovery order, then the surviving
`glm_vision` boxes in discovery order, then the surviving boxes of other
sources. -/
theorem C6_dual_pipeline_fusion (boxes : List BoundingBox) :
    (∃ rest, deduplicate_boxes boxes =
        boxes.filter (fun b => b.source = "ocr_has") ++
          ((boxes.filter (fun b => b.source = "glm_vision")).filter
            (fun g => ¬ (boxes.filter (fun b => b.source = "ocr_has")).any
              (fun o => (3:ℚ)/10 < calculate_iou g o))) ++ rest ∧
      ∀ b ∈ rest, b.source ≠ "ocr_has" ∧ b.source ≠ "glm_vision") ∧
    (∀ b ∈ boxes, b.source = "ocr_has" → b ∈ deduplicate_boxes boxes) ∧
    (∀ g, g.source = "glm_vision" →
      (g ∈ deduplicate_boxes boxes ↔
        g ∈ boxes ∧ ∀ o ∈ boxes, o.source = "ocr_has" →
          calculate_iou g o ≤ 3/10)) ∧
    (∀ a ∈ deduplicate_boxes boxes, ∀ b ∈ deduplicate_boxes boxes,
      a.source = "ocr_has" → b.source = "glm_vision" →
        calculate_iou a b ≤ 3/10 ∧ calculate_iou b a ≤ 3/10) := by
  classical
  set A := boxes.filter (fun b => b.source = "ocr_has") with hA
  set G := boxes.filter (fun b => b.source = "glm_vision") with hG
  set O := boxes.filter
    (fun b => b.source ≠ "ocr_has" ∧ b.source ≠ "glm_vision") with hO
  set S := G.filter
    (fun g => ¬ A.any (fun o => (3:ℚ)/10 < calculate_iou g o)) with hS
  obtain ⟨rest, hrest, hrestmem⟩ := addOtherBoxes_decomp (3/10) O (A ++ S)
  have hout : deduplicate_boxes boxes = A ++ S ++ rest := by
    rw [deduplicate_boxes_eq_core]
    exact hrest
  have hmemA : ∀ x ∈ A, x ∈ boxes ∧ x.source = "ocr_has" := by
    intro x hx
    have := List.mem_filter.mp hx
    simpa using this
  have hmemAr : ∀ x ∈ boxes, x.source = "ocr_has" → x ∈ A := by
    intro x hx hsrc
    rw [hA]
    rw [List.mem_filter]
    simp [hx, hsrc]
  have hmemS : ∀ x ∈ S, (x ∈ boxes ∧ x.source = "glm_vision") ∧
      ∀ o ∈ A, calculate_iou x o ≤ 3/10 := by
    intro x hx
    have h1 := List.mem_filter.mp hx
    have h2 := List.mem_filter.mp h1.1
    refine ⟨by simpa using h2, ?_⟩
    intro o ho
    have h3 := h1.2
    simp only [List.any_eq_true, decide_eq_true_eq, not_exists, not_and,
      decide_not, Bool.not_eq_true', decide_eq_false_iff_not] at h3
    exact not_lt.mp (h3 o ho)
  have hmemSr : ∀ x ∈ boxes, x.source = "glm_vision" →
      (∀ o ∈ boxes, o.source = "ocr_has" → calculate_iou x o ≤ 3/10) → x ∈ S := by
    intro x hx hsrc hiou
    rw [hS]
    rw [List.mem_filter]
    refine ⟨by rw [hG]; rw [List.mem_filter]; simp [hx, hsrc], ?_⟩
    simp only [List.any_eq_true, decide_eq_true_eq, not_exists, not_and,
      decide_not, Bool.not_eq_true', decide_eq_false_iff_not]
    simp only [not_exists, not_and, not_lt]
    intro o ho
    exact hiou o (hmemA o ho).1 (hmemA o ho).2
  have hmemRest : ∀ x ∈ rest, x.source ≠ "ocr_has" ∧ x.source ≠ "glm_vision" := by
    intro x hx
    have := List.mem_filter.mp (hrestmem x hx)
    simpa using this.2
  have houtcases : ∀ x ∈ deduplicate_boxes boxes, x ∈ A ∨ x ∈ S ∨ x ∈ rest := by
    intro x hx
    rw [hout] at hx
    rcases List.mem_append.mp hx with hx | hx
    · rcases List.mem_append.mp hx with hx | hx
      · exact Or.inl hx
      · exact Or.inr (Or.inl hx)
    · exact Or.inr (Or.inr hx)
  refine ⟨⟨rest, hout, hmemRest⟩, ?_, ?_, ?_⟩
  · intro b hb hsrc
    rw [hout]
    exact List.mem_append_left _ (List.mem_append_left _ (hmemAr b hb hsrc))
  · intro g hsrc
    constructor
    · intro hg
      rcases houtcases g hg with hg2 | hg2 | hg2
      · exact absurd hsrc (by simp [(hmemA g hg2).2])
      · refine ⟨(hmemS g hg2).1.1, ?_⟩
        intro o ho hosrc
        exact (hmemS g hg2).2 o (hmemAr o ho hosrc)
      · exact absurd hsrc (hmemRest g hg2).2
    · intro ⟨hg, hiou⟩
      rw [hout]
      exact List.mem_append_left _ (List.mem_append_right _ (hmemSr g hg hsrc hiou))
  · intro a ha b hb hasrc hbsrc
    have haA : a ∈ A := by
      rcases houtcases a ha with h | h | h
      · exact h
      · exact absurd hasrc (by simp [(hmemS a h).1.2])
      · exact absurd hasrc (hmemRest a h).1
    have hbS : b ∈ S := by
      rcases houtcases b hb with h | h | h
      · exact absurd hbsrc (by simp [(hmemA b h).2])
      · exact h
      · exact absurd hbsrc (hmemRest b h).2
    have h1 : calculate_iou b a ≤ 3/10 := (hmemS b hbS).2 a haA
    exact ⟨by rw [calculate_iou_comm]; exact h1, h1⟩

/-- Witness for C6: an `ocr_has` box is retained and a far-away
`glm_vision` box survives fusion. -/
theorem C6_dual_pipeline_fusion_witness :
    ({ id := "o1", x := 0, y := 0, width := 1/5, height := 1/5, type := "SEAL",
       source := "ocr_has" } : BoundingBox) ∈
      deduplicate_boxes
        [{ id := "o1", x := 0, y := 0, width := 1/5, height := 1/5, type := "SEAL",
           source := "ocr_has" },
         { id := "g1", x := 1/2, y := 1/2, width := 1/5, height := 1/5,
           type := "SIGNATURE", source := "glm_vision" }] ∧
    ({ id := "g1", x := 1/2, y := 1/2, width := 1/5, height := 1/5,
       type := "SIGNATURE", source := "glm_vision" } : BoundingBox) ∈
      deduplicate_boxes
        [{ id := "o1", x := 0, y := 0, width := 1/5, height := 1/5, type := "SEAL",
           source := "ocr_has" },
         { id := "g1", x := 1/2, y := 1/2, width := 1/5, height := 1/5,
           type := "SIGNATURE", source := "glm_vision" }] :=
  ⟨(C6_dual_pipeline_fusion _).2.1 _ (by with_unfolding_all decide) rfl,
   ((C6_dual_pipeline_fusion _).2.2.1 _ rfl).mpr
     ⟨by with_unfolding_all decide, by with_unfolding_all decide⟩⟩

/-! ## Claim C7 — OCR sub-word box bounds -/

/-- Truncation of a nonnegative value is the floor. -/
theorem pyTrunc_eq_floor {q : ℚ} (h : 0 ≤ q) : pyTrunc q = ⌊q⌋ := if_pos h

/-- Truncation preserves nonnegativity. -/
theorem pyTrunc_nonneg {q : ℚ} (h : 0 ≤ q) : 0 ≤ pyTrunc q := by
  rw [pyTrunc_eq_floor h]
  exact Int.floor_nonneg.mpr h

/-- Truncation of a nonnegative value below an integer stays below it. -/
theorem pyTrunc_le_of_le {q : ℚ} {n : Int} (h0 : 0 ≤ q) (h : q ≤ (n : ℚ)) :
    pyTrunc q ≤ n := by
  rw [pyTrunc_eq_floor h0]
  calc ⌊q⌋ ≤ ⌊(n : ℚ)⌋ := Int.floor_le_floor h
  _ = n := Int.floor_intCast n

/-- Two truncations of nonnegative values are bounded by an integer bound
on their sum. -/
theorem pyTrunc_add_le {q1 q2 : ℚ} {n : Int} (h1 : 0 ≤ q1) (h2 : 0 ≤ q2)
    (h : q1 + q2 ≤ (n : ℚ)) : pyTrunc q1 + pyTrunc q2 ≤ n := by
  rw [pyTrunc_eq_floor h1, pyTrunc_eq_floor h2]
  have ha := Int.floor_le q1
  have hb := Int.floor_le q2
  have hc : ((⌊q1⌋ + ⌊q2⌋ : Int) : ℚ) ≤ (n : ℚ) := by
    push_cast
    linarith
  exact_mod_cast hc

/-- A successful `pyFindFrom` yields an in-range occurrence. -/
theorem pyFindFrom_spec (s sub : String) (i j : Nat)
    (h : pyFindFrom s sub i = some j) :
    i ≤ j ∧ j + pyLen sub ≤ pyLen s := by
  simp only [pyLen]
  unfold pyFindFrom at h
  have hmem := List.mem_filter.mp (List.mem_of_mem_head? h)
  have hcond : i ≤ j ∧ sub.data.isPrefixOf (s.data.drop j) = true := by
    simpa using hmem.2
  have hrange : j < s.data.length + 1 := List.mem_range.mp hmem.1
  refine ⟨hcond.1, ?_⟩
  have hpre := List.isPrefixOf_iff_prefix.mp hcond.2
  have hlen := hpre.length_le
  rw [List.length_drop] at hlen
  omega

/-- C7 as amended: every bounding box produced from an exact-substring
sub-word match inside a clipped OCR block satisfies `0 ≤ x`, `0 ≤ y`,
`y + height ≤ 1`, `width > 0`, `height > 0`, and
`x + width ≤ 1 + 20/W` — the 20-pixel minimum sub-word width can push the
box past the image's right edge (so `x + width ≤ 1` can fail), but never
by more than 20 pixels. -/
theorem C7_subword_box_bounds (W H : Int) (hW : 1 ≤ W) (hH : 1 ≤ H)
    (ix iy iw ih : ℚ) (blockText entityText : String)
    (left top right bottom : Int)
    (hblock : makeBlock ix iy iw ih W H = (left, top, right, bottom))
    (l t w h : Int)
    (hgeom : subwordGeometry left top (right - left) (bottom - top)
      blockText entityText = some (l, t, w, h)) :
    regionToUnitBox l t w h W H =
      ((l : ℚ) / (W : ℚ), (t : ℚ) / (H : ℚ), (w : ℚ) / (W : ℚ), (h : ℚ) / (H : ℚ)) ∧
    0 ≤ (l : ℚ) / (W : ℚ) ∧ 0 ≤ (t : ℚ) / (H : ℚ) ∧
    (t : ℚ) / (H : ℚ) + (h : ℚ) / (H : ℚ) ≤ 1 ∧
    0 < (w : ℚ) / (W : ℚ) ∧ 0 < (h : ℚ) / (H : ℚ) ∧
    (l : ℚ) / (W : ℚ) + (w : ℚ) / (W : ℚ) ≤ 1 + 20 / (W : ℚ) := by
  have hb := hblock
  simp only [makeBlock, Prod.mk.injEq] at hb
  obtain ⟨hL, hT, hR, hB⟩ := hb
  have hL0 : 0 ≤ left := by rw [← hL]; exact le_max_left _ _
  have hLW : left ≤ W - 1 := by
    rw [← hL]
    exact max_le (by omega) (min_le_right _ _)
  have hR1 : left + 1 ≤ right := by rw [← hR, hL]; exact le_max_left _ _
  have hRW : right ≤ W := by
    rw [← hR, hL]
    exact max_le (by omega) (min_le_right _ _)
  have hT0 : 0 ≤ top := by rw [← hT]; exact le_max_left _ _
  have hTH : top ≤ H - 1 := by
    rw [← hT]
    exact max_le (by omega) (min_le_right _ _)
  have hB1 : top + 1 ≤ bottom := by rw [← hB, hT]; exact le_max_left _ _
  have hBH : bottom ≤ H := by
    rw [← hB, hT]
    exact max_le (by omega) (min_le_right _ _)
  suffices hsuff : 0 ≤ l ∧ 0 ≤ t ∧ t + h ≤ H ∧ 0 < w ∧ 0 < h ∧ l + w ≤ W + 20 by
    obtain ⟨i1, i2, i3, i4, i5, i6⟩ := hsuff
    have hWQ : (0 : ℚ) < (W : ℚ) := by exact_mod_cast (by omega : (0 : Int) < W)
    have hHQ : (0 : ℚ) < (H : ℚ) := by exact_mod_cast (by omega : (0 : Int) < H)
    refine ⟨rfl, ?_, ?_, ?_, ?_, ?_, ?_⟩
    · exact div_nonneg (by exact_mod_cast i1) hWQ.le
    · exact div_nonneg (by exact_mod_cast i2) hHQ.le
    · rw [div_add_div_same, div_le_one hHQ]
      exact_mod_cast i3
    · exact div_pos (by exact_mod_cast i4) hWQ
    · exact div_pos (by exact_mod_cast i5) hHQ
    · rw [div_add_div_same, div_le_iff₀ hWQ, add_mul, one_mul,
        div_mul_cancel₀ _ hWQ.ne.symm]
      exact_mod_cast i6
  unfold subwordGeometry at hgeom
  cases hfind : pyFindFrom blockText entityText 0 with
  | none => simp [hfind] at hgeom
  | some sp =>
    obtain ⟨hsp0, hsple⟩ := pyFindFrom_spec blockText entityText 0 sp hfind
    simp only [hfind] at hgeom
    set tl := pyLen blockText with htl
    set el := pyLen entityText with hel
    have hwhole : ∀ hq : (l, t, w, h) = (left, top, right - left, bottom - top),
        0 ≤ l ∧ 0 ≤ t ∧ t + h ≤ H ∧ 0 < w ∧ 0 < h ∧ l + w ≤ W + 20 := by
      intro hq
      obtain ⟨h1, h2, h3, h4⟩ :
          l = left ∧ t = top ∧ w = right - left ∧ h = bottom - top := by
        simpa [Prod.ext_iff] using hq
      subst h1
      subst h2
      subst h3
      subst h4
      refine ⟨hL0, hT0, by omega, by omega, by omega, by omega⟩
    split at hgeom
    · exact hwhole (by simpa using hgeom.symm)
    · split at hgeom
      · split at hgeom
        · exact hwhole (by simpa using hgeom.symm)
        · -- the interpolating branch
          rename_i htl0 hwr
          have hq : (l, t, w, h) =
              (pyTrunc ((left : ℚ) + (sp : ℚ) / (tl : ℚ) * ((right - left : Int) : ℚ)),
               top,
               max (pyTrunc ((el : ℚ) / (tl : ℚ) * ((right - left : Int) : ℚ))) 20,
               bottom - top) := by
            simpa using hgeom.symm
          obtain ⟨h1, h2, h3, h4⟩ :
              l = pyTrunc ((left : ℚ) + (sp : ℚ) / (tl : ℚ) * ((right - left : Int) : ℚ)) ∧
              t = top ∧
              w = max (pyTrunc ((el : ℚ) / (tl : ℚ) * ((right - left : Int) : ℚ))) 20 ∧
              h = bottom - top := by
            simpa [Prod.ext_iff] using hq
          subst h1
          subst h2
          subst h3
          subst h4
          have htlq : (0 : ℚ) < (tl : ℚ) := by exact_mod_cast htl0
          have hwq0 : (0 : ℚ) ≤ ((right - left : Int) : ℚ) := by
            have : (0 : Int) ≤ right - left := by omega
            exact_mod_cast this
          have hspr : (sp : ℚ) / (tl : ℚ) ≤ 1 := by
            rw [div_le_one htlq]
            exact_mod_cast (by omega : sp ≤ tl)
          have hq1_0 : (0 : ℚ) ≤ (left : ℚ) + (sp : ℚ) / (tl : ℚ) * ((right - left : Int) : ℚ) := by
            have hgoal : (0 : ℚ) ≤ (sp : ℚ) / (tl : ℚ) * ((right - left : Int) : ℚ) :=
              mul_nonneg (div_nonneg (by positivity) htlq.le) hwq0
            have hleft : (0 : ℚ) ≤ (left : ℚ) := by exact_mod_cast hL0
            linarith
          have hq2_0 : (0 : ℚ) ≤ (el : ℚ) / (tl : ℚ) * ((right - left : Int) : ℚ) :=
            mul_nonneg (div_nonneg (by positivity) htlq.le) hwq0
          have hsum : (left : ℚ) + (sp : ℚ) / (tl : ℚ) * ((right - left : Int) : ℚ) +
              (el : ℚ) / (tl : ℚ) * ((right - left : Int) : ℚ) ≤ (right : ℚ) := by
            have hratio : (sp : ℚ) / (tl : ℚ) + (el : ℚ) / (tl : ℚ) ≤ 1 := by
              rw [div_add_div_same, div_le_one htlq]
              exact_mod_cast hsple
            have hmul : ((sp : ℚ) / (tl : ℚ) + (el : ℚ) / (tl : ℚ)) *
                ((right - left : Int) : ℚ) ≤ 1 * ((right - left : Int) : ℚ) :=
              mul_le_mul_of_nonneg_right hratio hwq0
            have hcast : ((right - left : Int) : ℚ) = (right : ℚ) - (left : ℚ) := by
              push_cast
              ring
            rw [add_mul] at hmul
            rw [hcast] at hmul ⊢
            linarith
          have hq1_le : (left : ℚ) + (sp : ℚ) / (tl : ℚ) * ((right - left : Int) : ℚ) ≤
              (right : ℚ) := by
            linarith
          refine ⟨pyTrunc_nonneg hq1_0, hT0, by omega, ?_, by omega, ?_⟩
          · have h20 : (20 : Int) ≤ max (pyTrunc ((el : ℚ) / (tl : ℚ) *
                ((right - left : Int) : ℚ))) 20 := le_max_right _ _
            omega
          · by_cases hp : pyTrunc ((el : ℚ) / (tl : ℚ) * ((right - left : Int) : ℚ)) ≤ 20
            · rw [max_eq_right hp]
              have hlW : pyTrunc ((left : ℚ) + (sp : ℚ) / (tl : ℚ) *
                  ((right - left : Int) : ℚ)) ≤ W :=
                pyTrunc_le_of_le hq1_0 (by
                  have : (right : ℚ) ≤ (W : ℚ) := by exact_mod_cast hRW
                  linarith)
              omega
            · rw [max_eq_left (by omega)]
              have hsum2 := pyTrunc_add_le hq1_0 hq2_0 (n := W) (by
                have : (right : ℚ) ≤ (W : ℚ) := by exact_mod_cast hRW
                linarith)
              omega
      · exact hwhole (by simpa using hgeom.symm)

/-- C7 counterexample: a 30-pixel-wide block touching the right edge of a
100×100 image (OCR item `(0.70, 0, 0.30, 0.10)`), block text
`"aaaaabbbbb"` and matched entity `"bbbbb"`: the interpolated sub-word
width is raised to the 20-pixel minimum, the region becomes
`(85, 0, 20, 10)`, and the emitted unit box has `x + width = 1.05 > 1`,
violating the claimed invariant. -/
theorem C7_counterexample :
    makeBlock (7/10) 0 (3/10) (1/10) 100 100 = (70, 0, 100, 10) ∧
    subwordGeometry 70 0 30 10 "aaaaabbbbb" "bbbbb" = some (85, 0, 20, 10) ∧
    regionToUnitBox 85 0 20 10 100 100 = (17/20, 0, 1/5, 1/10) ∧
    ¬ ((17 : ℚ)/20 + 1/5 ≤ 1) := by
  refine ⟨by with_unfolding_all decide, by with_unfolding_all decide,
    by with_unfolding_all decide, by with_unfolding_all decide⟩

/-- Witness for C7 at the counterexample's block: the amended bound holds —
`x + width = 1.05 ≤ 1 + 20/100`. -/
theorem C7_subword_box_bounds_witness :
    0 ≤ (85 : ℚ) / (100 : ℚ) ∧
    (85 : ℚ) / (100 : ℚ) + (20 : ℚ) / (100 : ℚ) ≤ 1 + 20 / (100 : ℚ) := by
  have h := C7_subword_box_bounds 100 100 (by omega) (by omega)
    (7/10) 0 (3/10) (1/10) "aaaaabbbbb" "bbbbb" 70 0 100 10
    (by with_unfolding_all decide) 85 0 20 10 (by with_unfolding_all decide)
  have h1 := h.2.1
  have h2 := h.2.2.2.2.2.2
  push_cast at h1 h2
  exact ⟨h1, h2⟩
